import Mathlib

/-!
Shallow embedding of the hotel room-service order engine
(order extraction, fuzzy menu matching, order creation, the order-status
route with its notification fan-out, and caller-identity extraction),
together with theorems checking the specification's claims against it.

Strings are modelled as `List Char`; the JavaScript regular expressions
used by the extractor are embedded through a small leftmost-first
backtracking matcher (`reMatch`) whose alternation / laziness / greediness
order mirrors the JavaScript engine on the six concrete patterns of the
source.  JavaScript `NaN` quantities are modelled as `none : Option Nat`;
a thrown `TypeError` (reading `.trim()` of an undefined capture group) is
modelled as `Except.error ()`.  Prices are exact rationals (the dollar
amounts involved are exactly representable and the comparisons the code
performs agree with IEEE doubles at these magnitudes).
-/

namespace HotelAgent

/-! ## JavaScript-style character and string helpers -/

/-- ASCII digit test (`\d` for the inputs in scope). -/
def isDigitCh (c : Char) : Bool := '0' ≤ c && c ≤ '9'

/-- JavaScript `\s` restricted to ASCII whitespace. -/
def isWsCh (c : Char) : Bool :=
  c = ' ' || c = '\t' || c = '\n' || c = '\r' || c.toNat = 11 || c.toNat = 12

/-- Character class `[a-z]`. -/
def isAzCh (c : Char) : Bool := 'a' ≤ c && c ≤ 'z'

/-- Character class `[a-z\s]`. -/
def isAzWsCh (c : Char) : Bool := isAzCh c || isWsCh c

/-- `String.prototype.toLowerCase` on ASCII letters. -/
def jsToLower (l : List Char) : List Char :=
  l.map (fun c => if 'A' ≤ c && c ≤ 'Z' then Char.ofNat (c.toNat + 32) else c)

/-- `String.prototype.trim`. -/
def jsTrim (l : List Char) : List Char :=
  ((l.dropWhile isWsCh).reverse.dropWhile isWsCh).reverse

/-- `hay.includes(needle)` — substring containment. -/
def hasSub : List Char → List Char → Bool
  | n, h =>
    if n.isPrefixOf h then true
    else match h with
      | [] => false
      | _ :: t => hasSub n t

/-- Split at every separator character (JavaScript `split(sep)` for a
one-character separator): boundary separators yield empty tokens. -/
def splitByAux (p : Char → Bool) : List Char → List Char → List (List Char)
  | [], acc => [acc.reverse]
  | c :: rest, acc =>
    if p c then acc.reverse :: splitByAux p rest []
    else splitByAux p rest (c :: acc)

/-- JavaScript `split(' ')`. -/
def splitSpace (l : List Char) : List (List Char) :=
  splitByAux (fun c => c = ' ') l []

/-- JavaScript `split(/\s+/)`: maximal whitespace runs are single
separators, with an empty token kept at a boundary (leading or trailing
whitespace) exactly as the JavaScript engine does. -/
def splitWs (l : List Char) : List (List Char) :=
  match splitByAux isWsCh l [] with
  | [] => []
  | [x] => [x]
  | x :: rest => x :: (rest.dropLast.filter (fun t => !t.isEmpty)) ++ [rest.getLastD []]

/-- Digit string to number. -/
def natOfDigits (l : List Char) : Nat :=
  l.foldl (fun n c => 10 * n + (c.toNat - 48)) 0

/-- JavaScript `parseInt` on the strings reachable here (`none` = `NaN`). -/
def jsParseInt (s : List Char) : Option Nat :=
  let t := s.dropWhile isWsCh
  let ds := t.takeWhile isDigitCh
  if ds.isEmpty then none else some (natOfDigits ds)

/-- `!isNaN(s)` for strings over `[a-z\s0-9]` (whitespace-only coerces to
`0`, a nonempty all-digit trim is numeric, anything with a letter is
`NaN`). -/
def jsNotNaN (s : List Char) : Bool :=
  let t := jsTrim s
  t.isEmpty || t.all isDigitCh

/-- Truthiness of a possibly-undefined capture group. -/
def jsTruthyO : Option (List Char) → Bool
  | some (_ :: _) => true
  | _ => false

/-- `!isNaN(g)` guarded by the truthiness test in the source. -/
def jsNotNaNO (g : Option (List Char)) : Bool := jsNotNaN (g.getD [])

/-- JavaScript `NaN`-propagating addition on quantities. -/
def jsAddQ : Option Nat → Option Nat → Option Nat
  | some a, some b => some (a + b)
  | _, _ => none

/-! ## Regular-expression engine (leftmost-first backtracking, as in JS) -/

/-- The capture groups of one match; `none` models an undefined group. -/
structure RMatch where
  g1 : Option (List Char)
  g2 : Option (List Char)
deriving DecidableEq, Repr

/-- Syntax of the (tiny) regular-expression fragment the source uses. -/
inductive RE where
  | lit : List Char → RE
  | seqRE : RE → RE → RE
  | altRE : RE → RE → RE
  | optRE : RE → RE
  | grp : Nat → RE → RE
  | plusG : (Char → Bool) → RE
  | plusL : (Char → Bool) → RE
  | starG : (Char → Bool) → RE
  | endA : RE

/-- Greedy `[p]+`: consume one char, prefer consuming more. -/
def greedyPlus (p : Char → Bool) :
    List Char → RMatch → (List Char → RMatch → Option (RMatch × List Char)) →
    Option (RMatch × List Char)
  | [], _, _ => none
  | c :: s, caps, k =>
    if p c then (greedyPlus p s caps k).orElse (fun _ => k s caps) else none

/-- Lazy `[p]+?`: consume one char, prefer stopping. -/
def lazyPlus (p : Char → Bool) :
    List Char → RMatch → (List Char → RMatch → Option (RMatch × List Char)) →
    Option (RMatch × List Char)
  | [], _, _ => none
  | c :: s, caps, k =>
    if p c then (k s caps).orElse (fun _ => lazyPlus p s caps k) else none

/-- Record capture group `i` (substring = consumed part of `s`). -/
def setCap (i : Nat) (caps : RMatch) (v : List Char) : RMatch :=
  if i = 1 then { caps with g1 := some v } else { caps with g2 := some v }

/-- Backtracking matcher in continuation style: alternatives are tried in
written order, so the first success is the one the JavaScript engine
produces. -/
def reMatch : RE → List Char → RMatch → (List Char → RMatch → Option (RMatch × List Char)) →
    Option (RMatch × List Char)
  | .lit ls, s, caps, k => if ls.isPrefixOf s then k (s.drop ls.length) caps else none
  | .seqRE a b, s, caps, k => reMatch a s caps (fun s' c' => reMatch b s' c' k)
  | .altRE a b, s, caps, k => (reMatch a s caps k).orElse (fun _ => reMatch b s caps k)
  | .optRE a, s, caps, k => (reMatch a s caps k).orElse (fun _ => k s caps)
  | .grp i a, s, caps, k =>
    reMatch a s caps (fun s' c' => k s' (setCap i c' (s.take (s.length - s'.length))))
  | .plusG p, s, caps, k => greedyPlus p s caps k
  | .plusL p, s, caps, k => lazyPlus p s caps k
  | .starG p, s, caps, k => (greedyPlus p s caps k).orElse (fun _ => k s caps)
  | .endA, s, caps, k => if s.isEmpty then k s caps else none

/-- Leftmost match: try the pattern at each start position in order. -/
def findLeftmost (re : RE) : List Char → Option (RMatch × List Char)
  | [] => reMatch re [] ⟨none, none⟩ (fun s' c' => some (c', s'))
  | c :: t =>
    match reMatch re (c :: t) ⟨none, none⟩ (fun s' c' => some (c', s')) with
    | some r => some r
    | none => findLeftmost re t

/-- `while ((m = re.exec(s)) !== null)` with a global regex: each match
resumes after the previous one's end. -/
def execAllAux (re : RE) : Nat → List Char → List RMatch
  | 0, _ => []
  | fuel + 1, s =>
    match findLeftmost re s with
    | none => []
    | some (caps, s') =>
      if s'.length < s.length then caps :: execAllAux re fuel s' else [caps]

/-- All matches of a global regex over a string, in order. -/
def execAll (re : RE) (s : List Char) : List RMatch :=
  execAllAux re (s.length + 1) s

/-! ## The six patterns of `orderProcessor.js` -/

/-- Literal regex fragment. -/
def relit (s : String) : RE := .lit s.data

/-- Right-nested sequence of fragments. -/
def seqs : List RE → RE
  | [] => .lit []
  | [r] => r
  | r :: rs => .seqRE r (seqs rs)

/-- Right-nested alternation of fragments. -/
def alts : List RE → RE
  | [] => .lit []
  | [r] => r
  | r :: rs => .altRE r (alts rs)

/-- `/(\d+)\s+([a-z\s]+?)(?:and|or|,|$)/gi` -/
def patS1 : RE :=
  seqs [.grp 1 (.plusG isDigitCh), .plusG isWsCh, .grp 2 (.plusL isAzWsCh),
        alts [relit "and", relit "or", relit ",", .endA]]

/-- `/(\d+)\s+([a-z\s]+?)(?:,|\s+and|\s+or|$)/gi` -/
def patS2 : RE :=
  seqs [.grp 1 (.plusG isDigitCh), .plusG isWsCh, .grp 2 (.plusL isAzWsCh),
        alts [relit ",", .seqRE (.plusG isWsCh) (relit "and"),
              .seqRE (.plusG isWsCh) (relit "or"), .endA]]

/-- `/([a-z\s]+?)\s*x(\d+)/gi` -/
def patS3 : RE :=
  seqs [.grp 1 (.plusL isAzWsCh), .starG isWsCh, relit "x", .grp 2 (.plusG isDigitCh)]

/-- `/(?:two|three|four|five|six|seven|eight|nine|ten)\s+(?:of\s+the\s+)?([a-z\s]+)/gi`
— note: the quantity word is a non-capturing group, so this pattern has a
single capture group and `match[2]` is undefined on its matches. -/
def patS4 : RE :=
  seqs [alts [relit "two", relit "three", relit "four", relit "five", relit "six",
              relit "seven", relit "eight", relit "nine", relit "ten"],
        .plusG isWsCh,
        .optRE (seqs [relit "of", .plusG isWsCh, relit "the", .plusG isWsCh]),
        .grp 1 (.plusG isAzWsCh)]

/-- `/(\d+)\s*([a-z\s]+?)(?:,|$)/gi` -/
def patT1 : RE :=
  seqs [.grp 1 (.plusG isDigitCh), .starG isWsCh, .grp 2 (.plusL isAzWsCh),
        alts [relit ",", .endA]]

/-- `/([a-z\s]+?)\s*x(\d+)(?:,|$)/gi` -/
def patT2 : RE :=
  seqs [.grp 1 (.plusL isAzWsCh), .starG isWsCh, relit "x", .grp 2 (.plusG isDigitCh),
        alts [relit ",", .endA]]

/-! ## Catalog items and fuzzy matching (`findMenuItem`) -/

/-- A catalog (menu) item as loaded into the in-memory index. -/
structure MenuItem where
  id : Nat
  name : String
  price : ℚ
deriving DecidableEq, Repr

/-- One extracted order line (`quantity = none` models a `NaN` quantity). -/
structure OrderLine where
  id : Nat
  name : String
  price : ℚ
  quantity : Option Nat
deriving DecidableEq, Repr

/-- One inner row step of the Levenshtein matrix: `prev` starts at the
diagonal entry `matrix[i-1][j-1]`, `left` is `matrix[i][j-1]`. -/
def levRowAux (c2 : Char) : List Char → List Nat → Nat → List Nat
  | [], _, _ => []
  | c1 :: s1, prev, left =>
    match prev with
    | [] => []
    | diag :: rest =>
      let up := rest.headD 0
      let cur := if c2 = c1 then diag
                 else Nat.min (Nat.min (diag + 1) (left + 1)) (up + 1)
      cur :: levRowAux c2 s1 rest cur

/-- The dynamic-programming Levenshtein distance of `orderProcessor.js`. -/
def levenshteinDistance (str1 str2 : List Char) : Nat :=
  let row0 := List.range (str1.length + 1)
  let lastRow := str2.foldl (fun prev c2 =>
    let first := prev.headD 0 + 1
    first :: levRowAux c2 str1 prev first) row0
  lastRow.getLastD 0

/-- `(longer.length - distance) / longer.length`, `1.0` for two empty
strings, as an exact rational. -/
def calculateSimilarity (str1 str2 : List Char) : ℚ :=
  let longer := if str1.length > str2.length then str1 else str2
  let shorter := if str1.length > str2.length then str2 else str1
  if longer.length = 0 then 1
  else ((longer.length : ℚ) - (levenshteinDistance longer shorter : ℚ)) / (longer.length : ℚ)

/-- First pass of `findMenuItem`: exact case-insensitive name equality. -/
def exactPred (searchName : List Char) (item : MenuItem) : Bool :=
  jsToLower item.name.data = searchName

/-- Second pass of `findMenuItem`: substring containment in either
direction, or normalized similarity strictly above `0.6` — a single
disjunctive test applied in one scan. -/
def loosePred (searchName : List Char) (item : MenuItem) : Bool :=
  let n := jsToLower item.name.data
  hasSub searchName n || hasSub n searchName ||
    decide (calculateSimilarity searchName n > (3 : ℚ) / 5)

/-- `findMenuItem(itemName)`: guard on an empty name or catalog, then the
exact pass, then the loose pass; each pass returns the first catalog item
(iteration order) satisfying its test. -/
def findMenuItem (menuItems : List MenuItem) (itemName : List Char) : Option MenuItem :=
  if itemName.isEmpty || menuItems.isEmpty then none
  else
    let searchName := jsTrim (jsToLower itemName)
    match menuItems.find? (exactPred searchName) with
    | some m => some m
    | none => menuItems.find? (loosePred searchName)

/-! ## The order extractor (`parseOrderFromSpeech` / `parseOrderFromText`) -/

/-- The `numberWords` table. -/
def numberWords : List (List Char × Nat) :=
  [("one".data, 1), ("two".data, 2), ("three".data, 3), ("four".data, 4),
   ("five".data, 5), ("six".data, 6), ("seven".data, 7), ("eight".data, 8),
   ("nine".data, 9), ("ten".data, 10), ("a".data, 1), ("an".data, 1)]

/-- `numberWords[match[1]]` (undefined index and missing key both `none`). -/
def numLookupO (g : Option (List Char)) : Option Nat :=
  g.bind (fun s => (numberWords.find? (fun p => p.1 = s)).map (·.2))

/-- `match[2].trim()` — throws a `TypeError` when the group is undefined. -/
def jsTrimG : Option (List Char) → Except Unit (List Char)
  | none => .error ()
  | some s => .ok (jsTrim s)

/-- The quantity/item-name branch logic of the speech parser's match loop
(`match[1] && !isNaN(match[1])`, then the `x<N>` branch, then the
number-word branch, else quantity 1 with an empty name). -/
def speechQtyName (m : RMatch) : Except Unit (Option Nat × List Char) :=
  if jsTruthyO m.g1 && jsNotNaNO m.g1 then do
    let n ← jsTrimG m.g2
    .ok (jsParseInt (m.g1.getD []), n)
  else if jsTruthyO m.g2 && jsNotNaNO m.g2 then do
    let n ← jsTrimG m.g1
    .ok (jsParseInt (m.g2.getD []), n)
  else
    match numLookupO m.g1 with
    | some q => do
      let n ← jsTrimG m.g2
      .ok (some q, n)
    | none => .ok (some 1, [])

/-- Increment the quantity of the first line with the given id. -/
def updateFirstQty : List OrderLine → Nat → Option Nat → List OrderLine
  | [], _, _ => []
  | l :: rest, i, q =>
    if l.id = i then { l with quantity := jsAddQ l.quantity q } :: rest
    else l :: updateFirstQty rest i q

/-- The duplicate-merging push: if a line with the item's id exists its
quantity is increased, otherwise a new line is appended. -/
def addLine (acc : List OrderLine) (it : MenuItem) (q : Option Nat) : List OrderLine :=
  if acc.any (fun l => l.id = it.id) then updateFirstQty acc it.id q
  else acc ++ [⟨it.id, it.name, it.price, q⟩]

/-- Process one speech-pattern match against the accumulator. -/
def speechApplyMatch (menuItems : List MenuItem) (acc : List OrderLine) (m : RMatch) :
    Except Unit (List OrderLine) := do
  let (q, itemName) ← speechQtyName m
  if itemName.isEmpty then .ok acc
  else
    match findMenuItem menuItems itemName with
    | none => .ok acc
    | some it => .ok (addLine acc it q)

/-- Fold the match list (all four patterns, in order) through the
accumulator. -/
def speechRunMatches (menuItems : List MenuItem) :
    List RMatch → List OrderLine → Except Unit (List OrderLine)
  | [], acc => .ok acc
  | m :: ms, acc => do
    speechRunMatches menuItems ms (← speechApplyMatch menuItems acc m)

/-- The fallback containment test: every word of the item's name is in
substring relation (either direction) with some whitespace-token of the
utterance. -/
def allWordsPresent (speechWords : List (List Char)) (item : MenuItem) : Bool :=
  (splitSpace (jsToLower item.name.data)).all (fun w =>
    speechWords.any (fun sw => hasSub w sw || hasSub sw w))

/-- The catalog-scan fallback: each qualifying item, quantity 1. -/
def speechFallback (menuItems : List MenuItem) (sl : List Char) : List OrderLine :=
  (menuItems.filter (allWordsPresent (splitWs sl))).map
    (fun it => ⟨it.id, it.name, it.price, some 1⟩)

/-- The concatenated match stream of the four speech patterns. -/
def speechMatches (sl : List Char) : List RMatch :=
  execAll patS1 sl ++ execAll patS2 sl ++ execAll patS3 sl ++ execAll patS4 sl

/-- `parseOrderFromSpeech`: empty/whitespace input short-circuits to `[]`;
otherwise run the four patterns over the lowercased utterance, and fall
back to the catalog scan when no structured match resolved an item.
`Except.error ()` models the JavaScript `TypeError` thrown when a branch
reads `.trim()` of the undefined capture group 2 of the number-word
pattern. -/
def parseOrderFromSpeech (menuItems : List MenuItem) (speech : String) :
    Except Unit (List OrderLine) := do
  if (jsTrim speech.data).isEmpty then .ok []
  else
    let sl := jsToLower speech.data
    let acc ← speechRunMatches menuItems (speechMatches sl) []
    if acc.isEmpty then .ok (speechFallback menuItems sl) else .ok acc

/-- The quantity/item-name branch logic of the text parser (both accesses
to a possibly-undefined group are guarded in the source, so it is total). -/
def textQtyName (m : RMatch) : Option Nat × List Char :=
  if jsTruthyO m.g1 && jsNotNaNO m.g1 then
    (jsParseInt (m.g1.getD []), match m.g2 with | some s => jsTrim s | none => [])
  else if jsTruthyO m.g2 && jsNotNaNO m.g2 then
    (jsParseInt (m.g2.getD []), match m.g1 with | some s => jsTrim s | none => [])
  else (some 1, [])

/-- Process one text-pattern match against the accumulator. -/
def textApplyMatch (menuItems : List MenuItem) (acc : List OrderLine) (m : RMatch) :
    List OrderLine :=
  let (q, itemName) := textQtyName m
  if itemName.isEmpty then acc
  else
    match findMenuItem menuItems itemName with
    | none => acc
    | some it => addLine acc it q

/-- The concatenated match stream of the two text patterns. -/
def textMatches (tl : List Char) : List RMatch :=
  execAll patT1 tl ++ execAll patT2 tl

/-- `parseOrderFromText`: empty/whitespace input short-circuits to `[]`;
otherwise the two SMS patterns feed the same merge logic; there is no
fallback scan. -/
def parseOrderFromText (menuItems : List MenuItem) (text : String) : List OrderLine :=
  if (jsTrim text.data).isEmpty then []
  else
    let tl := jsToLower text.data
    (textMatches tl).foldl (textApplyMatch menuItems) []

/-! ## The persistent store (rooms, orders, order items, notification log) -/

/-- A `rooms` row. -/
structure Room where
  id : Nat
  roomNumber : String
  guestName : String
  phone : Option String
deriving DecidableEq, Repr

/-- An `orders` row (`total = none` models a `NaN` total). -/
structure OrderRow where
  id : Nat
  roomId : Nat
  total : Option ℚ
  instructions : String
  status : String
deriving DecidableEq, Repr

/-- An `order_items` row. -/
structure ItemRow where
  orderId : Nat
  menuItemId : Nat
  quantity : Option Nat
  unitPrice : ℚ
deriving DecidableEq, Repr

/-- A `notifications` log row. -/
structure NotifRecord where
  orderId : Nat
  typ : String
  status : String
  message : String
  recipient : Option String
deriving DecidableEq, Repr

/-- The database state the routes read and write. -/
structure Store where
  rooms : List Room
  orders : List OrderRow
  orderItems : List ItemRow
  notifLog : List NotifRecord
  nextOrderId : Nat
deriving DecidableEq, Repr

/-- `NaN`-propagating `price * quantity`. -/
def jsMulPQ (p : ℚ) : Option Nat → Option ℚ
  | some q => some (p * q)
  | none => none

/-- `NaN`-propagating rational addition. -/
def jsAddR : Option ℚ → Option ℚ → Option ℚ
  | some a, some b => some (a + b)
  | _, _ => none

/-- `items.reduce((sum, item) => sum + item.price * item.quantity, 0)`. -/
def ordersTotal (items : List OrderLine) : Option ℚ :=
  items.foldl (fun s it => jsAddR s (jsMulPQ it.price it.quantity)) (some 0)

/-! ## The notification dispatcher (`notificationService.js`) -/

/-- The environment of one dispatch: messaging credentials, staff phones
from configuration, and the outcome of each outbound send attempt. -/
structure NotifEnv where
  twilioReady : Bool
  kitchenPhone : Option String
  deliveryPhone : Option String
  staffPhone : Option String
  sendOk : Nat → Bool

/-- Observable effects of a status update, in dispatch order. -/
inductive Event where
  | persistStatus (orderId : Nat) (status : String)
  | smsAttempt (recip msg : String) (ok : Bool)
  | smsSkipped (recip msg : String)
  | logged (r : NotifRecord)
  | scheduledConfirmation (orderId : Nat)
deriving DecidableEq, Repr

/-- `sendSMS`: credentials missing skips silently; otherwise one attempt is
made whose failure is a thrown error (`false` in the last component). -/
def sendSMSM (env : NotifEnv) (n : Nat) (recip msg : String) : List Event × Nat × Bool :=
  if !env.twilioReady then ([.smsSkipped recip msg], n, true)
  else ([.smsAttempt recip msg (env.sendOk n)], n + 1, env.sendOk n)

/-- Sequential sends to a recipient list; a thrown failure aborts the rest. -/
def sendSeq (env : NotifEnv) (n : Nat) (msg : String) : List String → List Event × Nat × Bool
  | [] => ([], n, true)
  | p :: ps =>
    let (evs, n', ok) := sendSMSM env n p msg
    if ok then
      let (evs2, n'', ok2) := sendSeq env n' msg ps
      (evs ++ evs2, n'', ok2)
    else (evs, n', false)

/-- The joined order/room row `getOrderDetails` reads. -/
structure OrderDetails where
  id : Nat
  total : Option ℚ
  status : String
  roomNumber : String
  guestName : String
  roomPhone : Option String
deriving DecidableEq, Repr

/-- `getOrderDetails`: the order joined with its room, or nothing. -/
def getOrderDetails (st : Store) (orderId : Nat) : Option OrderDetails :=
  (st.orders.find? (fun o => o.id = orderId)).bind fun o =>
    (st.rooms.find? (fun r => r.id = o.roomId)).map fun r =>
      ⟨o.id, o.total, o.status, r.roomNumber, r.guestName, r.phone⟩

/-- The status-keyed guest message templates (text abbreviated; only the
keying by status matters to the claims). -/
def formatStatusMessage (status : String) (orderId : Nat) : String :=
  if validKey status then "order " ++ toString orderId ++ " status " ++ status
  else "order " ++ toString orderId ++ " unknown status " ++ status
where
  validKey (s : String) : Bool :=
    s = "pending" || s = "confirmed" || s = "preparing" || s = "ready" ||
    s = "delivered" || s = "cancelled"

/-- `sendDeliveryReminder` — it has its own catch-all, so it never throws. -/
def sendDeliveryReminder (st : Store) (env : NotifEnv) (n : Nat) (orderId : Nat) :
    List Event × Nat :=
  match getOrderDetails st orderId with
  | none => ([], n)
  | some _ =>
    match env.deliveryPhone.orElse (fun _ => env.staffPhone) with
    | none => ([], n)
    | some p =>
      let (evs, n', _) := sendSMSM env n p ("delivery reminder " ++ toString orderId)
      (evs, n')

/-- `sendStatusSpecificNotifications`: kitchen on `confirmed`, delivery
reminder on `ready`, a delayed guest confirmation scheduled on
`delivered`, all configured staff phones on `cancelled`. -/
def statusSpecific (st : Store) (env : NotifEnv) (n : Nat) (orderId : Nat) (status : String) :
    List Event × Nat × Bool :=
  if status = "confirmed" then
    match env.kitchenPhone with
    | some p => sendSMSM env n p ("kitchen start " ++ toString orderId)
    | none => ([], n, true)
  else if status = "ready" then
    let (evs, n') := sendDeliveryReminder st env n orderId
    (evs, n', true)
  else if status = "delivered" then
    ([.scheduledConfirmation orderId], n, true)
  else if status = "cancelled" then
    sendSeq env n ("cancelled " ++ toString orderId)
      ([env.kitchenPhone, env.deliveryPhone, env.staffPhone].filterMap id)
  else ([], n, true)

/-- `sendOrderStatusNotification`: the whole body is inside a catch-all,
so it never throws and never touches the `orders` table; a guest-send
failure skips the log append and the status-specific fan-out. -/
def sendOrderStatusNotification (st : Store) (env : NotifEnv) (orderId : Nat)
    (status : String) : Store × List Event :=
  match getOrderDetails st orderId with
  | none => (st, [])
  | some d =>
    let msg := formatStatusMessage status orderId
    let (evs1, n1, ok1) :=
      match d.roomPhone with
      | some p => if env.twilioReady then sendSMSM env 0 p msg else ([], 0, true)
      | none => ([], 0, true)
    if !ok1 then (st, evs1)
    else
      let logRec : NotifRecord := ⟨orderId, "sms", status, msg, d.roomPhone⟩
      let st2 := { st with notifLog := st.notifLog ++ [logRec] }
      let (evs2, _, _) := statusSpecific st2 env n1 orderId status
      (st2, evs1 ++ [Event.logged logRec] ++ evs2)

/-! ## The status-update route (`PUT /orders/:orderId/status`) -/

/-- Route outcome. -/
inductive UpdResp where
  | ok
  | invalidStatus
  | notFound
deriving DecidableEq, Repr

/-- The route's status whitelist. -/
def validStatuses : List String :=
  ["pending", "confirmed", "preparing", "ready", "delivered", "cancelled"]

/-- `UPDATE orders SET status = ? WHERE id = ?`. -/
def setOrderStatus (orders : List OrderRow) (orderId : Nat) (status : String) :
    List OrderRow :=
  orders.map (fun o => if o.id = orderId then { o with status := status } else o)

/-- The status-update route: whitelist check, the update (404 when no row
changed), then the best-effort notification, then a success response. -/
def updateOrderStatusRoute (st : Store) (env : NotifEnv) (orderId : Nat) (status : String) :
    UpdResp × Store × List Event :=
  if !(validStatuses.contains status) then (.invalidStatus, st, [])
  else if st.orders.all (fun o => o.id ≠ orderId) then (.notFound, st, [])
  else
    let st1 := { st with orders := setOrderStatus st.orders orderId status }
    let (st2, evs) := sendOrderStatusNotification st1 env orderId status
    (.ok, st2, Event.persistStatus orderId status :: evs)

/-! ## Order creation -/

/-- Which of the issued inserts succeed (index `i` for the `i`-th order
item; the order row has its own flag). -/
structure InsertSched where
  orderInsOk : Bool
  itemInsOk : Nat → Bool

/-- `orderProcessor.createOrder`: room lookup, order insert, then one
insert per line with NO transaction — every issued insert that succeeds
stays applied even when another one fails and the promise rejects. -/
def processorCreateOrder (st : Store) (sched : InsertSched) (roomNumber : String)
    (items : List OrderLine) (instructions : String) : Except Unit Nat × Store :=
  match st.rooms.find? (fun r => r.roomNumber = roomNumber) with
  | none => (.error (), st)
  | some room =>
    let total := ordersTotal items
    if !sched.orderInsOk then (.error (), st)
    else
      let oid := st.nextOrderId
      let st1 : Store := { st with
        nextOrderId := oid + 1
        orders := st.orders ++ [⟨oid, room.id, total, instructions, "pending"⟩] }
      if items.length = 0 then (.ok oid, st1)
      else
        let st2 : Store := { st1 with orderItems := st1.orderItems ++
          (items.enum.filterMap (fun p =>
            if sched.itemInsOk p.1 then some ⟨oid, p.2.id, p.2.quantity, p.2.price⟩
            else none)) }
        if (List.range items.length).all sched.itemInsOk then (.ok oid, st2)
        else (.error (), st2)

/-- Outcome of `POST /api/orders`. -/
inductive ApiResp where
  | created (orderId : Nat)
  | badRequest
  | serverError
deriving DecidableEq, Repr

/-- `POST /api/orders`: input validation, then `BEGIN TRANSACTION`, the
order insert, the item inserts, and `COMMIT` — any failure issues
`ROLLBACK`, restoring the pre-transaction store. -/
def apiCreateOrder (st : Store) (sched : InsertSched) (roomId : Nat)
    (items : List OrderLine) (instructions : String) : ApiResp × Store :=
  if roomId = 0 || items.isEmpty then (.badRequest, st)
  else
    let total := ordersTotal items
    if !sched.orderInsOk then (.serverError, st)
    else
      let oid := st.nextOrderId
      if (List.range items.length).all sched.itemInsOk then
        (.created oid, { st with
          nextOrderId := oid + 1
          orders := st.orders ++ [⟨oid, roomId, total, instructions, "pending"⟩]
          orderItems := st.orderItems ++
            items.enum.map (fun p => ⟨oid, p.2.id, p.2.quantity, p.2.price⟩) })
      else (.serverError, st)

/-! ## Caller identity (`extractRoomNumber`) and the SMS webhook -/

/-- `phoneNumber.match(/(\d{4})$/)`: the last four characters when they
are all digits, nothing otherwise. -/
def extractRoomNumber (phoneNumber : String) : Option String :=
  let l := phoneNumber.data
  let last4 := l.drop (l.length - 4)
  if 4 ≤ l.length && last4.all isDigitCh then some (String.mk last4) else none

/-- A conversation session (room identity and turn history). -/
structure Session where
  roomNumber : String
  history : List (String × String)
deriving DecidableEq, Repr

/-- The in-memory conversation-context map. -/
structure SessionStore where
  sessions : List (String × Session)
deriving DecidableEq, Repr

/-- Outbound replies of the SMS webhook. -/
inductive SmsOut where
  | reply (recip msg : String)
deriving DecidableEq, Repr

/-- The rejection reply of the SMS webhook. -/
def smsRejectionText : String :=
  "Please call from your hotel room phone for room service orders."

/-- `POST /twilio/sms`: the guard branch is literal; the work done once a
room number was extracted is abstracted as the continuation `k`, which the
theorems quantify over. -/
def smsRoute
    (k : String → String → String → Store × SessionStore → (Store × SessionStore) × List SmsOut)
    (st : Store × SessionStore) (fromNum body : String) :
    (Store × SessionStore) × List SmsOut :=
  match extractRoomNumber fromNum with
  | none => (st, [SmsOut.reply fromNum smsRejectionText])
  | some room => k room fromNum body st

/-! ## The resolved-match event stream of the extractor

The aggregation claims are stated against the list of `(item, quantity)`
resolution events the match loops produce, i.e. the same per-match branch
logic with the merge step stripped out. -/

/-- The resolution event of one speech match, if any. -/
def speechMatchEvent (menuItems : List MenuItem) (m : RMatch) :
    Except Unit (Option (MenuItem × Option Nat)) := do
  let (q, itemName) ← speechQtyName m
  if itemName.isEmpty then .ok none
  else .ok ((findMenuItem menuItems itemName).map (fun it => (it, q)))

/-- The resolution events of a speech match stream, in order. -/
def speechEventsList (menuItems : List MenuItem) :
    List RMatch → Except Unit (List (MenuItem × Option Nat))
  | [] => .ok []
  | m :: ms => do
    let e ← speechMatchEvent menuItems m
    let rest ← speechEventsList menuItems ms
    .ok (match e with | none => rest | some ev => ev :: rest)

/-- The resolution event of one text match, if any. -/
def textMatchEvent (menuItems : List MenuItem) (m : RMatch) :
    Option (MenuItem × Option Nat) :=
  let (q, itemName) := textQtyName m
  if itemName.isEmpty then none
  else (findMenuItem menuItems itemName).map (fun it => (it, q))

/-- The resolution events of a text match stream, in order. -/
def textEventsList (menuItems : List MenuItem) (ms : List RMatch) :
    List (MenuItem × Option Nat) :=
  ms.filterMap (textMatchEvent menuItems)

/-- Merging a list of events into the accumulator. -/
def aggregateLines (acc : List OrderLine) : List (MenuItem × Option Nat) → List OrderLine
  | [] => acc
  | (it, q) :: evs => aggregateLines (addLine acc it q) evs

/-- The fallback events: each qualifying catalog item with quantity 1. -/
def fallbackEvents (menuItems : List MenuItem) (sl : List Char) :
    List (MenuItem × Option Nat) :=
  (menuItems.filter (allWordsPresent (splitWs sl))).map (fun it => (it, some 1))

/-- The full event stream of one speech extraction (structured events, or
the fallback events when no structured match resolved an item). -/
def allSpeechEvents (menuItems : List MenuItem) (speech : String) :
    Except Unit (List (MenuItem × Option Nat)) :=
  if (jsTrim speech.data).isEmpty then .ok []
  else
    let sl := jsToLower speech.data
    (speechEventsList menuItems (speechMatches sl)).map
      (fun evs => if evs.isEmpty then fallbackEvents menuItems sl else evs)

/-- The full event stream of one text extraction. -/
def allTextEvents (menuItems : List MenuItem) (text : String) :
    List (MenuItem × Option Nat) :=
  if (jsTrim text.data).isEmpty then []
  else textEventsList menuItems (textMatches (jsToLower text.data))

/-- Summed quantity of the events resolving to a given item id. -/
def sumQtyFor : List (MenuItem × Option Nat) → Nat → Option Nat
  | [], _ => some 0
  | (it, q) :: evs, i =>
    if it.id = i then jsAddQ q (sumQtyFor evs i) else sumQtyFor evs i

/-! ## Algebra of `NaN`-propagating addition -/

theorem jsAddQ_assoc (a b c : Option Nat) :
    jsAddQ (jsAddQ a b) c = jsAddQ a (jsAddQ b c) := by
  cases a <;> cases b <;> cases c <;> simp [jsAddQ, Nat.add_assoc]

theorem jsAddQ_zero_left (q : Option Nat) : jsAddQ (some 0) q = q := by
  cases q <;> simp [jsAddQ]

theorem jsAddQ_zero_right (q : Option Nat) : jsAddQ q (some 0) = q := by
  cases q <;> simp [jsAddQ]

/-! ## Lemmas about the merge step -/

/-- Ids of a line list. -/
def lineIds (ls : List OrderLine) : List Nat := ls.map OrderLine.id

/-- The quantity the accumulator already holds for an id (`0` if absent). -/
def baseQ (acc : List OrderLine) (i : Nat) : Option Nat :=
  match acc.find? (fun l => l.id = i) with
  | some l => l.quantity
  | none => some 0

theorem baseQ_cons_pos (l : OrderLine) (rest : List OrderLine) (i : Nat)
    (h : l.id = i) : baseQ (l :: rest) i = l.quantity := by
  simp [baseQ, List.find?_cons, h]

theorem baseQ_cons_neg (l : OrderLine) (rest : List OrderLine) (i : Nat)
    (h : ¬l.id = i) : baseQ (l :: rest) i = baseQ rest i := by
  simp [baseQ, List.find?_cons, h]

theorem lineIds_updateFirstQty (acc : List OrderLine) (i : Nat) (q : Option Nat) :
    lineIds (updateFirstQty acc i q) = lineIds acc := by
  induction acc with
  | nil => rfl
  | cons l rest ih =>
    rw [updateFirstQty]
    split
    · simp [lineIds]
    · simp only [lineIds, List.map_cons] at ih ⊢
      rw [ih]

theorem mem_lineIds (acc : List OrderLine) (i : Nat) :
    i ∈ lineIds acc ↔ (acc.any (fun l => l.id = i)) = true := by
  simp only [lineIds, List.any_eq_true, List.mem_map, decide_eq_true_eq]

theorem lineIds_addLine_mem (acc : List OrderLine) (it : MenuItem) (q : Option Nat)
    (h : it.id ∈ lineIds acc) :
    lineIds (addLine acc it q) = lineIds acc := by
  rw [addLine, if_pos ((mem_lineIds acc it.id).1 h)]
  exact lineIds_updateFirstQty acc it.id q

theorem lineIds_addLine_notMem (acc : List OrderLine) (it : MenuItem) (q : Option Nat)
    (h : it.id ∉ lineIds acc) :
    lineIds (addLine acc it q) = lineIds acc ++ [it.id] := by
  rw [addLine, if_neg]
  · simp [lineIds]
  · intro hc
    exact h ((mem_lineIds acc it.id).2 hc)

theorem nodup_lineIds_addLine (acc : List OrderLine) (it : MenuItem) (q : Option Nat)
    (h : (lineIds acc).Nodup) : (lineIds (addLine acc it q)).Nodup := by
  by_cases hm : it.id ∈ lineIds acc
  · rw [lineIds_addLine_mem acc it q hm]; exact h
  · rw [lineIds_addLine_notMem acc it q hm]
    simpa [List.nodup_append] using ⟨h, hm⟩

theorem baseQ_updateFirstQty_same (acc : List OrderLine) (i : Nat) (q : Option Nat)
    (h : i ∈ lineIds acc) :
    baseQ (updateFirstQty acc i q) i = jsAddQ (baseQ acc i) q := by
  induction acc with
  | nil => simp [lineIds] at h
  | cons l rest ih =>
    by_cases hl : l.id = i
    · have hh : ({ l with quantity := jsAddQ l.quantity q } : OrderLine).id = i := hl
      rw [updateFirstQty, if_pos hl]
      rw [baseQ_cons_pos _ _ _ hh, baseQ_cons_pos _ _ _ hl]
    · have h' : i ∈ lineIds rest := by
        simp only [lineIds, List.map_cons, List.mem_cons] at h
        rcases h with h0 | h0
        · exact absurd h0.symm hl
        · exact h0
      rw [updateFirstQty, if_neg hl]
      rw [baseQ_cons_neg _ _ _ hl, baseQ_cons_neg _ _ _ hl]
      exact ih h'

theorem baseQ_updateFirstQty_ne (acc : List OrderLine) (i j : Nat) (q : Option Nat)
    (h : j ≠ i) : baseQ (updateFirstQty acc i q) j = baseQ acc j := by
  induction acc with
  | nil => rfl
  | cons l rest ih =>
    by_cases hl : l.id = i
    · have hnj : ¬(l.id = j) := by rw [hl]; exact fun hc => h hc.symm
      have hh : ¬({ l with quantity := jsAddQ l.quantity q } : OrderLine).id = j := hnj
      rw [updateFirstQty, if_pos hl]
      rw [baseQ_cons_neg _ _ _ hh, baseQ_cons_neg _ _ _ hnj]
    · rw [updateFirstQty, if_neg hl]
      by_cases hj : l.id = j
      · rw [baseQ_cons_pos _ _ _ hj, baseQ_cons_pos _ _ _ hj]
      · rw [baseQ_cons_neg _ _ _ hj, baseQ_cons_neg _ _ _ hj]
        exact ih

theorem baseQ_addLine_same (acc : List OrderLine) (it : MenuItem) (q : Option Nat) :
    baseQ (addLine acc it q) it.id = jsAddQ (baseQ acc it.id) q := by
  by_cases hm : it.id ∈ lineIds acc
  · rw [addLine, if_pos ((mem_lineIds acc it.id).1 hm)]
    exact baseQ_updateFirstQty_same acc it.id q hm
  · have hany : ¬(acc.any (fun l => l.id = it.id)) = true :=
      fun hc => hm ((mem_lineIds acc it.id).2 hc)
    rw [addLine, if_neg hany]
    have hfind : acc.find? (fun l => l.id = it.id) = none := by
      rw [List.find?_eq_none]
      intro l hl hc
      exact hany (List.any_eq_true.2 ⟨l, hl, hc⟩)
    simp [baseQ, List.find?_append, hfind, List.find?, jsAddQ_zero_left]

theorem baseQ_addLine_ne (acc : List OrderLine) (it : MenuItem) (q : Option Nat)
    (j : Nat) (h : j ≠ it.id) : baseQ (addLine acc it q) j = baseQ acc j := by
  rw [addLine]
  split
  · exact baseQ_updateFirstQty_ne acc it.id j q h
  · have : (fun l : OrderLine => l.id = j) ⟨it.id, it.name, it.price, q⟩ = false := by
      simp
      exact fun hc => h hc.symm
    simp [baseQ, List.find?_append, List.find?, this]

theorem addLine_ne_nil (acc : List OrderLine) (it : MenuItem) (q : Option Nat) :
    addLine acc it q ≠ [] := by
  rw [addLine]
  split
  · cases acc with
    | nil => simp_all
    | cons l rest => simp [updateFirstQty]; split <;> simp
  · simp

theorem mem_lineIds_addLine (acc : List OrderLine) (it : MenuItem) (q : Option Nat)
    (j : Nat) (h : j ∈ lineIds (addLine acc it q)) : j ∈ lineIds acc ∨ j = it.id := by
  by_cases hm : it.id ∈ lineIds acc
  · rw [lineIds_addLine_mem acc it q hm] at h; exact Or.inl h
  · rw [lineIds_addLine_notMem acc it q hm] at h
    simpa using h

theorem baseQ_self (acc : List OrderLine) (l : OrderLine)
    (hnd : (lineIds acc).Nodup) (hl : l ∈ acc) : baseQ acc l.id = l.quantity := by
  induction acc with
  | nil => simp at hl
  | cons a rest ih =>
    rw [show lineIds (a :: rest) = a.id :: lineIds rest from rfl] at hnd
    obtain ⟨hnin, hnd'⟩ := List.nodup_cons.1 hnd
    by_cases ha : a.id = l.id
    · rw [baseQ_cons_pos _ _ _ ha]
      rcases List.mem_cons.1 hl with rfl | hl'
      · rfl
      · exact absurd (ha ▸ List.mem_map.2 ⟨l, hl', rfl⟩) hnin
    · rw [baseQ_cons_neg _ _ _ ha]
      rcases List.mem_cons.1 hl with rfl | hl'
      · exact absurd rfl ha
      · exact ih hnd' hl'

/-- The central aggregation invariant: merging an event list into an
accumulator with duplicate-free ids keeps the ids duplicate-free, and
every resulting line's quantity is its initial quantity plus the summed
quantities of the events resolving to its id. -/
theorem aggregateLines_main (evs : List (MenuItem × Option Nat)) :
    ∀ acc : List OrderLine, (lineIds acc).Nodup →
      (lineIds (aggregateLines acc evs)).Nodup ∧
      ∀ l ∈ aggregateLines acc evs,
        l.quantity = jsAddQ (baseQ acc l.id) (sumQtyFor evs l.id) ∧
        (l.id ∈ lineIds acc ∨ ∃ e ∈ evs, e.1.id = l.id) := by
  induction evs with
  | nil =>
    intro acc hnd
    refine ⟨hnd, fun l hl => ⟨?_, Or.inl (List.mem_map.2 ⟨l, hl, rfl⟩)⟩⟩
    rw [show sumQtyFor [] l.id = some 0 from rfl, jsAddQ_zero_right]
    exact (baseQ_self acc l hnd hl).symm
  | cons e evs ih =>
    intro acc hnd
    obtain ⟨it, q⟩ := e
    have hstep : aggregateLines acc ((it, q) :: evs) = aggregateLines (addLine acc it q) evs := rfl
    have hnd' := nodup_lineIds_addLine acc it q hnd
    obtain ⟨ihnd, ihq⟩ := ih (addLine acc it q) hnd'
    refine ⟨by rwa [hstep], ?_⟩
    intro l hl
    rw [hstep] at hl
    obtain ⟨hq, hmem⟩ := ihq l hl
    by_cases hid : it.id = l.id
    · refine ⟨?_, Or.inr ⟨(it, q), List.mem_cons_self _ _, hid⟩⟩
      rw [hq, show sumQtyFor ((it, q) :: evs) l.id =
            if it.id = l.id then jsAddQ q (sumQtyFor evs l.id) else sumQtyFor evs l.id from rfl,
          if_pos hid, ← hid, baseQ_addLine_same, jsAddQ_assoc]
    · constructor
      · rw [hq, show sumQtyFor ((it, q) :: evs) l.id =
              if it.id = l.id then jsAddQ q (sumQtyFor evs l.id) else sumQtyFor evs l.id from rfl,
            if_neg hid, baseQ_addLine_ne acc it q l.id (fun hc => hid hc.symm)]
      · rcases hmem with hin | ⟨ev, hev, hevid⟩
        · rcases mem_lineIds_addLine acc it q l.id hin with h | h
          · exact Or.inl h
          · exact absurd h.symm hid
        · exact Or.inr ⟨ev, List.mem_cons_of_mem _ hev, hevid⟩

theorem aggregateLines_ne_nil (evs : List (MenuItem × Option Nat)) :
    ∀ acc : List OrderLine, acc ≠ [] → aggregateLines acc evs ≠ [] := by
  induction evs with
  | nil => intro acc h; exact h
  | cons e evs ih =>
    intro acc _
    obtain ⟨it, q⟩ := e
    exact ih (addLine acc it q) (addLine_ne_nil acc it q)

theorem aggregateLines_nil_iff (evs : List (MenuItem × Option Nat)) :
    aggregateLines [] evs = [] ↔ evs = [] := by
  cases evs with
  | nil => simp [aggregateLines]
  | cons e evs =>
    obtain ⟨it, q⟩ := e
    simp only [aggregateLines]
    constructor
    · intro h
      exact absurd h (aggregateLines_ne_nil evs (addLine [] it q) (addLine_ne_nil [] it q))
    · intro h; cases h

/-! ## The match loops compute the aggregation of their event streams -/

theorem speechApplyMatch_eq (menuItems : List MenuItem) (acc : List OrderLine) (m : RMatch) :
    speechApplyMatch menuItems acc m =
      (speechMatchEvent menuItems m).map
        (fun e => match e with | none => acc | some p => addLine acc p.1 p.2) := by
  rw [speechApplyMatch, speechMatchEvent]
  cases h : speechQtyName m with
  | error e => simp [h, Except.map, Bind.bind, Except.bind]
  | ok v =>
    obtain ⟨q, n⟩ := v
    simp only [h, Bind.bind, Except.bind]
    by_cases hn : n.isEmpty
    · simp [hn, Except.map]
    · simp only [hn, Bool.false_eq_true, if_false]
      cases findMenuItem menuItems n <;> simp [Except.map]

theorem speechRunMatches_eq (menuItems : List MenuItem) (ms : List RMatch) :
    ∀ acc : List OrderLine,
      speechRunMatches menuItems ms acc =
        (speechEventsList menuItems ms).map (aggregateLines acc) := by
  induction ms with
  | nil => intro acc; rfl
  | cons m ms ih =>
    intro acc
    rw [speechRunMatches, speechEventsList]
    rw [speechApplyMatch_eq]
    cases he : speechMatchEvent menuItems m with
    | error e => simp [Except.map, Bind.bind, Except.bind]
    | ok ev =>
      simp only [Except.map, Bind.bind, Except.bind]
      rw [ih]
      cases hr : speechEventsList menuItems ms with
      | error e => simp [Except.map]
      | ok evs =>
        simp only [Except.map]
        cases ev with
        | none => rfl
        | some p => rfl

theorem textApplyMatch_eq (menuItems : List MenuItem) (acc : List OrderLine) (m : RMatch) :
    textApplyMatch menuItems acc m =
      match textMatchEvent menuItems m with
      | none => acc
      | some p => addLine acc p.1 p.2 := by
  rw [textApplyMatch, textMatchEvent]
  obtain ⟨q, n⟩ := textQtyName m
  by_cases hn : n.isEmpty
  · simp [hn]
  · simp only [hn, Bool.false_eq_true, if_false]
    cases findMenuItem menuItems n <;> rfl

theorem textFold_eq (menuItems : List MenuItem) (ms : List RMatch) :
    ∀ acc : List OrderLine,
      ms.foldl (textApplyMatch menuItems) acc =
        aggregateLines acc (textEventsList menuItems ms) := by
  induction ms with
  | nil => intro acc; rfl
  | cons m ms ih =>
    intro acc
    rw [List.foldl_cons, textApplyMatch_eq]
    show _ = aggregateLines acc ((m :: ms).filterMap (textMatchEvent menuItems))
    rw [List.filterMap_cons]
    cases he : textMatchEvent menuItems m with
    | none => exact ih acc
    | some p =>
      show ms.foldl (textApplyMatch menuItems) (addLine acc p.1 p.2) =
        aggregateLines (addLine acc p.1 p.2) (textEventsList menuItems ms)
      exact ih (addLine acc p.1 p.2)

/-! ## Facts about the fallback events -/

theorem sumQtyFor_not_mem (evs : List (MenuItem × Option Nat)) (i : Nat)
    (h : ∀ e ∈ evs, e.1.id ≠ i) : sumQtyFor evs i = some 0 := by
  induction evs with
  | nil => rfl
  | cons e evs ih =>
    obtain ⟨it, q⟩ := e
    rw [show sumQtyFor ((it, q) :: evs) i =
          if it.id = i then jsAddQ q (sumQtyFor evs i) else sumQtyFor evs i from rfl,
        if_neg (h (it, q) (List.mem_cons_self _ _))]
    exact ih (fun e he => h e (List.mem_cons_of_mem _ he))

theorem fallback_sumQty (its : List MenuItem) (hnd : (its.map MenuItem.id).Nodup) :
    ∀ it ∈ its, sumQtyFor (its.map (fun x => (x, (some 1 : Option Nat)))) it.id = some 1 := by
  induction its with
  | nil => intro it h; simp at h
  | cons a rest ih =>
    rw [List.map_cons, List.nodup_cons] at hnd
    intro it hit
    rcases List.mem_cons.1 hit with rfl | hit'
    · rw [List.map_cons,
          show sumQtyFor ((it, some 1) :: rest.map (fun x => (x, (some 1 : Option Nat)))) it.id =
            if it.id = it.id then
              jsAddQ (some 1) (sumQtyFor (rest.map (fun x => (x, (some 1 : Option Nat)))) it.id)
            else sumQtyFor (rest.map (fun x => (x, (some 1 : Option Nat)))) it.id from rfl,
          if_pos rfl, sumQtyFor_not_mem]
      · rfl
      · rintro e he
        rcases List.mem_map.1 he with ⟨x, hx, rfl⟩
        intro hc
        exact hnd.1 (List.mem_map.2 ⟨x, hx, hc⟩)
    · rw [List.map_cons,
          show sumQtyFor ((a, some 1) :: rest.map (fun x => (x, (some 1 : Option Nat)))) it.id =
            if a.id = it.id then
              jsAddQ (some 1) (sumQtyFor (rest.map (fun x => (x, (some 1 : Option Nat)))) it.id)
            else sumQtyFor (rest.map (fun x => (x, (some 1 : Option Nat)))) it.id from rfl]
      rw [if_neg (fun hc : a.id = it.id => hnd.1 (hc ▸ List.mem_map.2 ⟨it, hit', rfl⟩))]
      exact ih hnd.2 it hit'

/-! ## Shared concrete fixtures -/

/-- The catalog of the spec's scenario (§8). -/
def scenarioCatalog : List MenuItem :=
  [⟨1, "Caesar Salad", 1299/100⟩, ⟨8, "Coffee", 399/100⟩]

/-- A store with one room and one delivered order. -/
def stDelivered : Store :=
  ⟨[⟨5, "101", "Guest", some "+15550101"⟩], [⟨1, 5, some 10, "", "delivered"⟩], [], [], 2⟩

/-- A store with one room and no orders. -/
def stRoomOnly : Store :=
  ⟨[⟨5, "101", "Guest", some "+15550101"⟩], [], [], [], 2⟩

/-- A fully configured notification environment in which every send
succeeds. -/
def envAllOk : NotifEnv := ⟨true, some "k", some "d", some "s", fun _ => true⟩

/-- A notification environment in which every send attempt fails. -/
def envAllFail : NotifEnv := ⟨true, some "k", some "d", some "s", fun _ => false⟩

/-! ## Claim C1 — status-transition validation -/

/-- Modelled from the spec: the allowed-successor sets of §4.5
(`pending → confirmed → preparing → ready → delivered`, `cancelled`
reachable from every non-terminal status, no transition out of
`delivered` or `cancelled`).  The route under `src/` has no such table;
this definition exists only to state the claim against the route. -/
def specAllowedSuccessors : String → List String
  | "pending" => ["confirmed", "cancelled"]
  | "confirmed" => ["preparing", "cancelled"]
  | "preparing" => ["ready", "cancelled"]
  | "ready" => ["delivered", "cancelled"]
  | _ => []

/-- Claim C1, counterexample: `"pending"` is not an allowed successor of
`"delivered"`, yet the status-update route accepts the update on a
delivered order and reports success. -/
theorem claim_C1_counterexample :
    (updateOrderStatusRoute stDelivered envAllOk 1 "pending").1 = .ok ∧
    ((updateOrderStatusRoute stDelivered envAllOk 1 "pending").2.1.orders.map
        OrderRow.status) = ["pending"] ∧
    specAllowedSuccessors "delivered" = [] := by
  refine ⟨rfl, rfl, rfl⟩

/-- Claim C1 (amended): the status-update route succeeds exactly when the
requested status is one of the six valid status names and the order
exists, with no reference to the order's current status; an unknown
status name is rejected as invalid (HTTP 400), and a valid name with a
missing order yields not-found (HTTP 404). -/
theorem claim_C1_update_route (st : Store) (env : NotifEnv) (orderId : Nat) (status : String) :
    ((updateOrderStatusRoute st env orderId status).1 = .ok ↔
       status ∈ validStatuses ∧ ∃ o ∈ st.orders, o.id = orderId) ∧
    ((updateOrderStatusRoute st env orderId status).1 = .invalidStatus ↔
       status ∉ validStatuses) ∧
    ((updateOrderStatusRoute st env orderId status).1 = .notFound ↔
       status ∈ validStatuses ∧ ∀ o ∈ st.orders, o.id ≠ orderId) := by
  rw [updateOrderStatusRoute]
  by_cases hv : status ∈ validStatuses
  · rw [if_neg (by simp [List.contains, List.elem_eq_mem, hv])]
    by_cases ho : ∃ o ∈ st.orders, o.id = orderId
    · rw [if_neg (by simp [List.all_eq_true]; exact ho)]
      refine ⟨?_, ?_, ?_⟩
      · simp [hv, ho]
      · simp [hv]
      · simp only [iff_false_intro (show UpdResp.ok ≠ UpdResp.notFound from fun h => nomatch h)]
        simp only [false_iff]
        rintro ⟨-, hall⟩
        obtain ⟨o, hm, hid⟩ := ho
        exact hall o hm hid
    · rw [if_pos (by simp [List.all_eq_true]; intro o hm hc; exact ho ⟨o, hm, hc⟩)]
      refine ⟨?_, ?_, ?_⟩
      · simp only [false_iff, iff_false_intro (show UpdResp.notFound ≠ UpdResp.ok from fun h => nomatch h)]
        rintro ⟨-, ho'⟩
        exact ho ho'
      · simp [hv]
      · simp only [true_iff]
        refine ⟨hv, fun o hm hc => ho ⟨o, hm, hc⟩⟩
  · rw [if_pos (by simp [List.contains, List.elem_eq_mem, hv])]
    refine ⟨?_, ?_, ?_⟩
    · simp only [false_iff, iff_false_intro (show UpdResp.invalidStatus ≠ UpdResp.ok from fun h => nomatch h)]
      rintro ⟨hv', -⟩
      exact hv hv'
    · simp [hv]
    · simp only [false_iff, iff_false_intro (show UpdResp.invalidStatus ≠ UpdResp.notFound from fun h => nomatch h)]
      rintro ⟨hv', -⟩
      exact hv hv'

/-! ## Claim C2 — the scenario "two coffees and a caesar salad" -/

/-- Claim C2, evaluated: on the scenario catalog the utterance
`"two coffees and a caesar salad"` is NOT parsed as `[{id:8,qty:2},
{id:1,qty:1}]`.  The number-word pattern captures only the item phrase
(its quantity word is a non-capturing group), no structured pattern
resolves an item, and the whole-catalog fallback returns both items with
quantity 1 in catalog order; the computed total is `16.98`, not the
claimed `20.97`. -/
theorem claim_C2_scenario :
    parseOrderFromSpeech scenarioCatalog "two coffees and a caesar salad" =
      .ok [⟨1, "Caesar Salad", 1299/100, some 1⟩, ⟨8, "Coffee", 399/100, some 1⟩] ∧
    ordersTotal [⟨1, "Caesar Salad", 1299/100, some 1⟩, ⟨8, "Coffee", 399/100, some 1⟩] =
      some (1698/100) ∧
    ((1698 : ℚ)/100 = 2097/100) = False := by
  refine ⟨rfl, by norm_num [ordersTotal, jsAddR, jsMulPQ], by norm_num⟩

/-! ## Claim C7 — "never throws" -/

/-- Claim C7, evaluated at the failing input: on `"two three"` the speech
parser throws (the number-word branch reads `.trim()` of the undefined
capture group 2), instead of returning an empty list; empty and
whitespace-only utterances do return empty lists, and the text parser
returns an empty list on unrecognized input. -/
theorem claim_C7_throw :
    parseOrderFromSpeech scenarioCatalog "two three" = .error () ∧
    parseOrderFromSpeech scenarioCatalog "" = .ok [] ∧
    parseOrderFromSpeech scenarioCatalog "   " = .ok [] ∧
    parseOrderFromText scenarioCatalog "" = [] ∧
    parseOrderFromText scenarioCatalog "hello there" = [] := by
  refine ⟨rfl, rfl, rfl, rfl, rfl⟩

/-! ## Claim C5 — atomicity of order creation -/

/-- The failure schedule in which the second item insert fails. -/
def schedFailSecond : InsertSched := ⟨true, fun i => i ≠ 1⟩

/-- The order lines of the scenario order. -/
def scenarioLines : List OrderLine :=
  [⟨1, "Caesar Salad", 1299/100, some 1⟩, ⟨8, "Coffee", 399/100, some 2⟩]

/-- Claim C5, counterexample: when the second line insert fails,
`orderProcessor.createOrder` rejects, yet the order row and the first
line row remain in the store — the creation is partially applied. -/
theorem claim_C5_counterexample :
    (processorCreateOrder stRoomOnly schedFailSecond "101" scenarioLines "").1 = .error () ∧
    ((processorCreateOrder stRoomOnly schedFailSecond "101" scenarioLines "").2.orders.map
        OrderRow.id) = [2] ∧
    ((processorCreateOrder stRoomOnly schedFailSecond "101" scenarioLines "").2.orderItems.map
        ItemRow.menuItemId) = [1] := by
  refine ⟨rfl, rfl, rfl⟩

/-- Claim C5 (amended): the HTTP order-creation route IS atomic — for
every store, failure schedule and input, either it reports `201 Created`
and the store holds the order row and all its line rows, or it reports an
error and the store is exactly the pre-transaction store. -/
theorem claim_C5_api_atomicity (st : Store) (sched : InsertSched) (roomId : Nat)
    (items : List OrderLine) (instr : String) :
    (∃ oid, (apiCreateOrder st sched roomId items instr).1 = .created oid ∧
       (apiCreateOrder st sched roomId items instr).2.orders =
         st.orders ++ [⟨oid, roomId, ordersTotal items, instr, "pending"⟩] ∧
       (apiCreateOrder st sched roomId items instr).2.orderItems =
         st.orderItems ++ items.enum.map (fun p => ⟨oid, p.2.id, p.2.quantity, p.2.price⟩)) ∨
    ((∀ oid, (apiCreateOrder st sched roomId items instr).1 ≠ .created oid) ∧
       (apiCreateOrder st sched roomId items instr).2 = st) := by
  rw [apiCreateOrder]
  by_cases h0 : (roomId = 0 || items.isEmpty) = true
  · rw [if_pos h0]
    exact Or.inr ⟨(fun oid h => nomatch h), rfl⟩
  · rw [if_neg h0]
    by_cases h1 : (!sched.orderInsOk) = true
    · rw [if_pos h1]
      exact Or.inr ⟨(fun oid h => nomatch h), rfl⟩
    · rw [if_neg h1]
      by_cases h2 : ((List.range items.length).all sched.itemInsOk) = true
      · rw [if_pos h2]
        exact Or.inl ⟨st.nextOrderId, rfl, rfl, rfl⟩
      · rw [if_neg h2]
        exact Or.inr ⟨(fun oid h => nomatch h), rfl⟩

/-! ## Claim C9 — quantity ≥ 1 -/

/-- Claim C9, counterexample: the utterance `"0 coffee"` produces an
order line with quantity `0`. -/
theorem claim_C9_counterexample :
    parseOrderFromText scenarioCatalog "0 coffee" =
      [⟨8, "Coffee", 399/100, some 0⟩] := by
  rfl

/-! ## Claim C10 — caller identity and the SMS guard -/

/-- A continuation that ignores its input (used to witness the guard
theorem). -/
def kIdentity : String → String → String → Store × SessionStore →
    (Store × SessionStore) × List SmsOut :=
  fun _ _ _ st => (st, [])

/-- Claim C10: the room identity is exactly the last four characters of
the caller string when those are all digits (equivalently, when the
string ends in at least four consecutive digits), and nothing otherwise;
when no room number is extracted the SMS webhook leaves the store and
session store untouched and only sends the rejection reply — whatever
the rest of the handler would have done. -/
theorem claim_C10_identity (s : String) (r : String)
    (k : String → String → String → Store × SessionStore → (Store × SessionStore) × List SmsOut)
    (st : Store × SessionStore) (body : String) :
    (extractRoomNumber s = some r ↔
       ∃ t d, s.data = t ++ d ∧ d.length = 4 ∧ (∀ c ∈ d, isDigitCh c = true) ∧
         r = String.mk d) ∧
    (extractRoomNumber s = none →
       smsRoute k st s body = (st, [SmsOut.reply s smsRejectionText])) := by
  constructor
  · rw [extractRoomNumber]
    by_cases hc : (4 ≤ s.data.length && (s.data.drop (s.data.length - 4)).all isDigitCh) = true
    · rw [if_pos hc]
      rw [Bool.and_eq_true, decide_eq_true_eq, List.all_eq_true] at hc
      constructor
      · rintro h
        injection h with h
        refine ⟨s.data.take (s.data.length - 4), s.data.drop (s.data.length - 4),
          (List.take_append_drop _ _).symm, ?_, fun c hcm => hc.2 c hcm, h.symm⟩
        rw [List.length_drop]
        omega
      · rintro ⟨t, d, hsd, hlen, _, rfl⟩
        have : s.data.drop (s.data.length - 4) = d := by
          rw [hsd, List.length_append, hlen]
          rw [show t.length + 4 - 4 = t.length from by omega]
          exact List.drop_left t d
        rw [this]
    · rw [if_neg hc]
      constructor
      · rintro h; cases h
      · rintro ⟨t, d, hsd, hlen, hdig, rfl⟩
        exfalso
        apply hc
        rw [Bool.and_eq_true, decide_eq_true_eq, List.all_eq_true]
        have hslen : s.data.length = t.length + 4 := by rw [hsd, List.length_append, hlen]
        have hdrop : s.data.drop (s.data.length - 4) = d := by
          rw [hsd, List.length_append, hlen,
              show t.length + 4 - 4 = t.length from by omega]
          exact List.drop_left t d
        exact ⟨by omega, by rw [hdrop]; exact hdig⟩
  · intro h
    rw [smsRoute, h]

/-! ## Claim C3 — the fuzzy matcher -/

/-- The matcher exactly as the claim describes it, for comparison with
`findMenuItem`: stage (2) substring containment is a separate pass taking
priority over stage (3), and stage (3) returns the single best-scoring
candidate above the `0.6` threshold, first match winning a tie. -/
def specFindMenuItem (items : List MenuItem) (itemName : List Char) : Option MenuItem :=
  let searchName := jsTrim (jsToLower itemName)
  match items.find? (exactPred searchName) with
  | some m => some m
  | none =>
    match items.find? (fun item =>
        let n := jsToLower item.name.data
        hasSub searchName n || hasSub n searchName) with
    | some m => some m
    | none =>
      items.foldl (fun best item =>
        if calculateSimilarity searchName (jsToLower item.name.data) > (3 : ℚ)/5 then
          match best with
          | none => some item
          | some b =>
            if calculateSimilarity searchName (jsToLower item.name.data) >
                calculateSimilarity searchName (jsToLower b.name.data) then some item
            else some b
        else best) none

/-- Evaluation helper: similarity with the lengths and the edit distance
computed outside the rationals. -/
theorem calculateSimilarity_eval (s1 s2 : List Char) (n1 n2 d : Nat)
    (h1 : s1.length = n1) (h2 : s2.length = n2) (hgt : n2 < n1)
    (hd : levenshteinDistance s1 s2 = d) :
    calculateSimilarity s1 s2 = ((n1 : ℚ) - d) / n1 := by
  have hc : s2.length < s1.length := by rw [h1, h2]; exact hgt
  simp only [calculateSimilarity]
  rw [if_pos hc, if_pos hc, if_neg (by rw [h1]; omega), hd, h1]

/-- A catalog on which the two algorithms disagree. -/
def catLatte : List MenuItem := [⟨1, "late", 5⟩, ⟨2, "vanilla latte", 6⟩]

/-- Claim C3, counterexample: searching `"latte"`, the code returns
`"late"` (the first item passing the single merged substring-or-similarity
pass, via similarity 4/5), while the claim's staged algorithm returns
`"vanilla latte"` (a stage-(2) substring containment).  The code performs
no best-scoring selection and does not give substring containment
priority over similarity. -/
theorem claim_C3_counterexample :
    findMenuItem catLatte "latte".data = some ⟨1, "late", 5⟩ ∧
    specFindMenuItem catLatte "latte".data = some ⟨2, "vanilla latte", 6⟩ ∧
    ((⟨1, "late", 5⟩ : MenuItem) = ⟨2, "vanilla latte", 6⟩) = False := by
  have hsim : calculateSimilarity (jsTrim (jsToLower "latte".data))
      (jsToLower "late".data) = ((5 : ℚ) - 1) / 5 :=
    calculateSimilarity_eval _ _ 5 4 1 (by decide) (by decide) (by decide) (by decide)
  have hgt : calculateSimilarity (jsTrim (jsToLower "latte".data))
      (jsToLower "late".data) > (3 : ℚ)/5 := by
    rw [hsim]; norm_num
  have hloose1 : loosePred (jsTrim (jsToLower "latte".data)) ⟨1, "late", 5⟩ = true := by
    rw [loosePred]
    rw [decide_eq_true hgt]
    simp
  have hex1 : exactPred (jsTrim (jsToLower "latte".data)) ⟨1, "late", 5⟩ = false := by decide
  have hex2 : exactPred (jsTrim (jsToLower "latte".data)) ⟨2, "vanilla latte", 6⟩ = false := by
    decide
  refine ⟨?_, rfl, by simp⟩
  rw [findMenuItem, if_neg (by decide)]
  show (match List.find? (exactPred (jsTrim (jsToLower "latte".data))) catLatte with
    | some m => some m
    | none => List.find? (loosePred (jsTrim (jsToLower "latte".data))) catLatte) =
      some ⟨1, "late", 5⟩
  rw [show catLatte = [⟨1, "late", 5⟩, ⟨2, "vanilla latte", 6⟩] from rfl]
  rw [List.find?_cons_of_neg _ (by simp [hex1]), List.find?_cons_of_neg _ (by simp [hex2])]
  show List.find? (loosePred (jsTrim (jsToLower "latte".data)))
      [⟨1, "late", 5⟩, ⟨2, "vanilla latte", 6⟩] = some ⟨1, "late", 5⟩
  rw [List.find?_cons_of_pos _ hloose1]

/-- Claim C3 (amended): after the exact pass, `findMenuItem` runs ONE scan
with the disjunctive test (substring containment in either direction, OR
similarity strictly above 0.6) and returns the first catalog item passing
it; there is no best-scoring selection and no priority of substring over
similarity.  Precisely: a result is returned iff the name is nonempty and
it is the first exact match, or — when there is no exact match — the
first item passing the disjunctive test. -/
theorem claim_C3_matcher (items : List MenuItem) (itemName : List Char) (it : MenuItem) :
    findMenuItem items itemName = some it ↔
      itemName.isEmpty = false ∧
      ((exactPred (jsTrim (jsToLower itemName)) it = true ∧
        ∃ pre post, items = pre ++ it :: post ∧
          ∀ x ∈ pre, exactPred (jsTrim (jsToLower itemName)) x = false) ∨
       ((∀ x ∈ items, exactPred (jsTrim (jsToLower itemName)) x = false) ∧
        loosePred (jsTrim (jsToLower itemName)) it = true ∧
        ∃ pre post, items = pre ++ it :: post ∧
          ∀ x ∈ pre, loosePred (jsTrim (jsToLower itemName)) x = false)) := by
  rw [findMenuItem]
  by_cases hg : (itemName.isEmpty || items.isEmpty) = true
  · rw [if_pos hg]
    rw [Bool.or_eq_true] at hg
    rcases hg with h | h
    · simp only [h]
      constructor
      · rintro hc; cases hc
      · rintro ⟨hfalse, -⟩; cases hfalse
    · have hnil : items = [] := by
        cases items with
        | nil => rfl
        | cons a l => simp [List.isEmpty] at h
      subst hnil
      constructor
      · rintro hc; cases hc
      · rintro ⟨-, hcase⟩
        rcases hcase with ⟨-, pre, post, hsplit, -⟩ | ⟨-, -, pre, post, hsplit, -⟩ <;>
          exact ((List.cons_ne_nil it post) (List.append_eq_nil.mp hsplit.symm).2).elim
  · rw [if_neg hg]
    have hne : itemName.isEmpty = false := by
      cases he : itemName.isEmpty with
      | false => rfl
      | true => exact absurd (by rw [Bool.or_eq_true]; exact Or.inl he) hg
    show (match List.find? (exactPred (jsTrim (jsToLower itemName))) items with
      | some m => some m
      | none => List.find? (loosePred (jsTrim (jsToLower itemName))) items) = some it ↔ _
    cases hf : items.find? (exactPred (jsTrim (jsToLower itemName))) with
    | some m =>
      have hf2 := List.find?_eq_some.1 hf
      constructor
      · rintro h
        injection h with h
        subst h
        refine ⟨hne, Or.inl ⟨hf2.1, ?_⟩⟩
        obtain ⟨-, as, bs, hsplit, hpre⟩ := hf2
        exact ⟨as, bs, hsplit, fun x hx => by simpa using hpre x hx⟩
      · rintro ⟨-, hcase⟩
        rcases hcase with ⟨hex, pre, post, hsplit, hpre⟩ | ⟨hnone, -⟩
        · have hit : items.find? (exactPred (jsTrim (jsToLower itemName))) = some it :=
            List.find?_eq_some.2 ⟨hex, pre, post, hsplit, fun a ha => by simp [hpre a ha]⟩
          rw [hf] at hit
          injection hit with hit
          rw [hit]
        · exfalso
          obtain ⟨hm, as, bs, hsplit, -⟩ := hf2
          have hmem : m ∈ items := by
            rw [hsplit]; exact List.mem_append_right as (List.mem_cons_self m bs)
          rw [hnone m hmem] at hm
          cases hm
    | none =>
      have hf2 := List.find?_eq_none.1 hf
      have hallex : ∀ x ∈ items, exactPred (jsTrim (jsToLower itemName)) x = false := by
        intro x hx
        cases he : exactPred (jsTrim (jsToLower itemName)) x with
        | false => rfl
        | true => exact absurd he (hf2 x hx)
      cases hl : items.find? (loosePred (jsTrim (jsToLower itemName))) with
      | some m =>
        have hl2 := List.find?_eq_some.1 hl
        constructor
        · rintro h
          injection h with h
          subst h
          refine ⟨hne, Or.inr ⟨hallex, hl2.1, ?_⟩⟩
          obtain ⟨-, as, bs, hsplit, hpre⟩ := hl2
          exact ⟨as, bs, hsplit, fun x hx => by simpa using hpre x hx⟩
        · rintro ⟨-, hcase⟩
          rcases hcase with ⟨hex, pre, post, hsplit, -⟩ | ⟨-, hloose, pre, post, hsplit, hpre⟩
          · exfalso
            have hmem : it ∈ items := by
              rw [hsplit]; exact List.mem_append_right pre (List.mem_cons_self it post)
            exact (hf2 it hmem) hex
          · have hit : items.find? (loosePred (jsTrim (jsToLower itemName))) = some it :=
              List.find?_eq_some.2 ⟨hloose, pre, post, hsplit, fun a ha => by simp [hpre a ha]⟩
            rw [hl] at hit
            injection hit with hit
            rw [hit]
      | none =>
        have hl2 := List.find?_eq_none.1 hl
        constructor
        · rintro hc; cases hc
        · rintro ⟨-, hcase⟩
          rcases hcase with ⟨hex, pre, post, hsplit, -⟩ | ⟨-, hloose, pre, post, hsplit, -⟩
          · exfalso
            have hmem : it ∈ items := by
              rw [hsplit]; exact List.mem_append_right pre (List.mem_cons_self it post)
            exact (hf2 it hmem) hex
          · exfalso
            have hmem : it ∈ items := by
              rw [hsplit]; exact List.mem_append_right pre (List.mem_cons_self it post)
            exact (hl2 it hmem) hloose

/-! ## Claim C6 — persist before notify, notification failure isolated -/

/-- Is this event the persistence of a status change? -/
def isPersistEvent : Event → Bool
  | .persistStatus _ _ => true
  | _ => false

theorem sendSMSM_no_persist (env : NotifEnv) (n : Nat) (recip msg : String) :
    ∀ e ∈ (sendSMSM env n recip msg).1, isPersistEvent e = false := by
  rw [sendSMSM]
  split
  · intro e he
    rw [List.mem_singleton.1 he]
    rfl
  · intro e he
    rw [List.mem_singleton.1 he]
    rfl

theorem sendSeq_no_persist (env : NotifEnv) (msg : String) :
    ∀ (phones : List String) (n : Nat),
      ∀ e ∈ (sendSeq env n msg phones).1, isPersistEvent e = false := by
  intro phones
  induction phones with
  | nil => intro n e he; cases he
  | cons p ps ih =>
    intro n e he
    rw [sendSeq] at he
    rcases hsm : sendSMSM env n p msg with ⟨evs, n', ok⟩
    rw [hsm] at he
    by_cases hok : ok = true
    · rw [hok] at he
      simp only [if_true] at he
      rcases hseq : sendSeq env n' msg ps with ⟨evs2, n'', ok2⟩
      rw [hseq] at he
      rcases List.mem_append.1 he with h | h
      · have := sendSMSM_no_persist env n p msg e
        rw [hsm] at this
        exact this h
      · have := ih n' e
        rw [hseq] at this
        exact this h
    · rw [Bool.not_eq_true] at hok
      rw [hok] at he
      simp only [Bool.false_eq_true, if_false] at he
      have := sendSMSM_no_persist env n p msg e
      rw [hsm] at this
      exact this he

theorem sendDeliveryReminder_no_persist (st : Store) (env : NotifEnv) (n : Nat)
    (orderId : Nat) :
    ∀ e ∈ (sendDeliveryReminder st env n orderId).1, isPersistEvent e = false := by
  intro e he
  rw [sendDeliveryReminder] at he
  cases hd : getOrderDetails st orderId with
  | none => rw [hd] at he; cases he
  | some d =>
    rw [hd] at he
    dsimp only at he
    cases hp : env.deliveryPhone.orElse (fun _ => env.staffPhone) with
    | none => rw [hp] at he; cases he
    | some p =>
      rw [hp] at he
      dsimp only at he
      rcases hsm : sendSMSM env n p ("delivery reminder " ++ toString orderId) with ⟨evs, n', ok⟩
      rw [hsm] at he
      dsimp only at he
      have hnp := sendSMSM_no_persist env n p ("delivery reminder " ++ toString orderId) e
      rw [hsm] at hnp
      exact hnp he

theorem statusSpecific_no_persist (st : Store) (env : NotifEnv) (n : Nat)
    (orderId : Nat) (status : String) :
    ∀ e ∈ (statusSpecific st env n orderId status).1, isPersistEvent e = false := by
  rw [statusSpecific]
  by_cases h1 : status = "confirmed"
  · rw [if_pos h1]
    cases env.kitchenPhone with
    | none => intro e he; cases he
    | some p => exact sendSMSM_no_persist env n p _
  · rw [if_neg h1]
    by_cases h2 : status = "ready"
    · rw [if_pos h2]
      intro e he
      rcases hdr : sendDeliveryReminder st env n orderId with ⟨evs, n'⟩
      rw [hdr] at he
      have := sendDeliveryReminder_no_persist st env n orderId e
      rw [hdr] at this
      exact this he
    · rw [if_neg h2]
      by_cases h3 : status = "delivered"
      · rw [if_pos h3]
        intro e he
        rw [List.mem_singleton.1 he]
        rfl
      · rw [if_neg h3]
        by_cases h4 : status = "cancelled"
        · rw [if_pos h4]
          exact sendSeq_no_persist env _ _ n
        · rw [if_neg h4]
          intro e he; cases he

/-- The dispatcher never touches the `orders` table and never emits a
persistence event: its only store effect is appending to the notification
log. -/
theorem notify_preserves_orders (st : Store) (env : NotifEnv) (orderId : Nat)
    (status : String) :
    (sendOrderStatusNotification st env orderId status).1.orders = st.orders ∧
    ∀ e ∈ (sendOrderStatusNotification st env orderId status).2,
      isPersistEvent e = false := by
  rw [sendOrderStatusNotification]
  cases hd : getOrderDetails st orderId with
  | none => exact ⟨rfl, fun e he => nomatch he⟩
  | some d =>
    dsimp only
    rcases h1 : (match d.roomPhone with
      | some p => if env.twilioReady then
          sendSMSM env 0 p (formatStatusMessage status orderId) else ([], 0, true)
      | none => ([], 0, true)) with ⟨evs1, n1, ok1⟩
    rw [h1]
    dsimp only
    have hevs1 : ∀ e ∈ evs1, isPersistEvent e = false := by
      intro e he
      cases hp : d.roomPhone with
      | none =>
        rw [hp] at h1
        injection h1 with h1a h1b
        rw [← h1a] at he
        cases he
      | some p =>
        rw [hp] at h1
        by_cases ht : env.twilioReady = true
        · rw [ht] at h1
          simp only [if_true] at h1
          have := sendSMSM_no_persist env 0 p (formatStatusMessage status orderId) e
          rw [h1] at this
          exact this he
        · rw [Bool.not_eq_true] at ht
          rw [ht] at h1
          simp only [Bool.false_eq_true, if_false] at h1
          injection h1 with h1a h1b
          rw [← h1a] at he
          cases he
    by_cases hok : ok1 = true
    · rw [hok]
      simp only [Bool.not_true, Bool.false_eq_true, if_false]
      rcases h2 : statusSpecific
          { st with notifLog := st.notifLog ++
              [⟨orderId, "sms", status, formatStatusMessage status orderId, d.roomPhone⟩] }
          env n1 orderId status with ⟨evs2, n2, ok2⟩
      refine ⟨trivial, ?_⟩
      intro e he
      rcases List.mem_append.1 he with h | h
      · rcases List.mem_append.1 h with ha | hb
        · exact hevs1 e ha
        · rw [List.mem_singleton.1 hb]
          rfl
      · have := statusSpecific_no_persist
          { st with notifLog := st.notifLog ++
              [⟨orderId, "sms", status, formatStatusMessage status orderId, d.roomPhone⟩] }
          env n1 orderId status e
        rw [h2] at this
        exact this h
    · rw [Bool.not_eq_true] at hok
      rw [hok]
      simp only [Bool.not_false, if_true]
      exact ⟨trivial, hevs1⟩

/-- Claim C6: for a valid status on an existing order, the route reports
success and the new status is persisted, the persisted `orders` table is
the same under EVERY notification environment (so no unresolved recipient
or failed send ever rolls back or alters the status change), and the
persistence event strictly precedes every dispatch event in the effect
trace. -/
theorem claim_C6_persist_before_notify (st : Store) (env env' : NotifEnv)
    (orderId : Nat) (status : String)
    (hs : status ∈ validStatuses) (ho : ∃ o ∈ st.orders, o.id = orderId) :
    (updateOrderStatusRoute st env orderId status).1 = .ok ∧
    (updateOrderStatusRoute st env orderId status).2.1.orders =
      setOrderStatus st.orders orderId status ∧
    (updateOrderStatusRoute st env' orderId status).2.1.orders =
      (updateOrderStatusRoute st env orderId status).2.1.orders ∧
    ∃ evs, (updateOrderStatusRoute st env orderId status).2.2 =
        Event.persistStatus orderId status :: evs ∧
      ∀ e ∈ evs, isPersistEvent e = false := by
  have hroute : ∀ env₀ : NotifEnv,
      updateOrderStatusRoute st env₀ orderId status =
        (.ok, (sendOrderStatusNotification
            { st with orders := setOrderStatus st.orders orderId status } env₀ orderId status).1,
          Event.persistStatus orderId status ::
            (sendOrderStatusNotification
              { st with orders := setOrderStatus st.orders orderId status } env₀ orderId status).2) := by
    intro env₀
    rw [updateOrderStatusRoute]
    rw [if_neg (by simp [List.contains, List.elem_eq_mem, hs])]
    rw [if_neg (by simp [List.all_eq_true]; exact ho)]
  obtain ⟨hord, hnop⟩ := notify_preserves_orders
    { st with orders := setOrderStatus st.orders orderId status } env orderId status
  obtain ⟨hord', -⟩ := notify_preserves_orders
    { st with orders := setOrderStatus st.orders orderId status } env' orderId status
  refine ⟨by rw [hroute env], ?_, ?_, ?_⟩
  · rw [hroute env]
    exact hord
  · rw [hroute env, hroute env']
    rw [hord, hord']
  · rw [hroute env]
    exact ⟨_, rfl, hnop⟩

/-- Claim C6, witness: a concrete delivered order, updated to `"ready"`
under an environment in which every outbound send fails, versus one in
which every send succeeds. -/
theorem claim_C6_persist_before_notify_witness :
    (updateOrderStatusRoute stDelivered envAllFail 1 "ready").1 = .ok ∧
    (updateOrderStatusRoute stDelivered envAllFail 1 "ready").2.1.orders =
      setOrderStatus stDelivered.orders 1 "ready" ∧
    (updateOrderStatusRoute stDelivered envAllOk 1 "ready").2.1.orders =
      (updateOrderStatusRoute stDelivered envAllFail 1 "ready").2.1.orders := by
  have h := claim_C6_persist_before_notify stDelivered envAllFail envAllOk 1 "ready"
    (by decide) ⟨⟨1, 5, some 10, "", "delivered"⟩, by decide, rfl⟩
  exact ⟨h.1, h.2.1, h.2.2.1⟩

/-! ## Structure of a successful speech extraction -/

/-- Every successful speech extraction is either the empty short-circuit,
the aggregation of a nonempty structured event stream, or the fallback
scan (with the matching event stream recorded by `allSpeechEvents`). -/
theorem parse_speech_cases (menuItems : List MenuItem) (speech : String)
    (lines : List OrderLine)
    (h : parseOrderFromSpeech menuItems speech = .ok lines) :
    (lines = [] ∧ allSpeechEvents menuItems speech = .ok []) ∨
    (∃ evs, evs ≠ [] ∧ allSpeechEvents menuItems speech = .ok evs ∧
       lines = aggregateLines [] evs) ∨
    (lines = speechFallback menuItems (jsToLower speech.data) ∧
       allSpeechEvents menuItems speech =
         .ok (fallbackEvents menuItems (jsToLower speech.data))) := by
  rw [parseOrderFromSpeech] at h
  rw [allSpeechEvents]
  by_cases hc : (jsTrim speech.data).isEmpty = true
  · rw [if_pos hc] at h ⊢
    injection h with h
    exact Or.inl ⟨h.symm, rfl⟩
  · rw [if_neg hc] at h ⊢
    dsimp only
    rw [show (speechRunMatches menuItems (speechMatches (jsToLower speech.data)) [] >>=
        fun acc => if acc.isEmpty then .ok (speechFallback menuItems (jsToLower speech.data))
          else .ok acc) =
      ((speechEventsList menuItems (speechMatches (jsToLower speech.data))).map
          (aggregateLines []) >>=
        fun acc => if acc.isEmpty then .ok (speechFallback menuItems (jsToLower speech.data))
          else .ok acc) from by rw [speechRunMatches_eq]] at h
    cases hse : speechEventsList menuItems (speechMatches (jsToLower speech.data)) with
    | error e =>
      rw [hse] at h
      cases h
    | ok evs0 =>
      rw [hse] at h
      simp only [Except.map, Bind.bind, Except.bind] at h
      simp only [Except.map]
      by_cases hacc : (aggregateLines [] evs0).isEmpty = true
      · rw [if_pos hacc] at h
        injection h with h
        have hevs0 : evs0 = [] :=
          (aggregateLines_nil_iff evs0).1 (List.isEmpty_iff.1 hacc)
        subst hevs0
        simp only [List.isEmpty_nil, if_true]
        exact Or.inr (Or.inr ⟨h.symm, trivial⟩)
      · rw [if_neg hacc] at h
        injection h with h
        have hevs0 : evs0 ≠ [] := by
          intro hnil
          subst hnil
          exact hacc rfl
        rw [if_neg (by simpa using hevs0)]
        exact Or.inr (Or.inl ⟨evs0, hevs0, rfl, h.symm⟩)

/-! ## Claim C4 — duplicate lines merged by summing quantities -/

/-- Claim C4: for both entry points, the output has at most one line per
catalog item id (given duplicate-free catalog ids), and each line's
quantity is the sum of the quantities of the individual resolution events
(structured pattern matches, or the fallback's implicit quantity-1 hits)
that resolved to that id. -/
theorem claim_C4_aggregation (menuItems : List MenuItem) (speech text : String)
    (hnd : (menuItems.map MenuItem.id).Nodup) :
    (∀ lines, parseOrderFromSpeech menuItems speech = .ok lines →
       ∃ evs, allSpeechEvents menuItems speech = .ok evs ∧
         (lines.map OrderLine.id).Nodup ∧
         ∀ l ∈ lines, l.quantity = sumQtyFor evs l.id) ∧
    (((parseOrderFromText menuItems text).map OrderLine.id).Nodup ∧
      ∀ l ∈ parseOrderFromText menuItems text,
        l.quantity = sumQtyFor (allTextEvents menuItems text) l.id) := by
  constructor
  · intro lines h
    rcases parse_speech_cases menuItems speech lines h with
      ⟨rfl, hev⟩ | ⟨evs, hne, hev, rfl⟩ | ⟨rfl, hev⟩
    · exact ⟨[], hev, List.nodup_nil, fun l hl => nomatch hl⟩
    · refine ⟨evs, hev, ?_, ?_⟩
      · exact (aggregateLines_main evs [] List.nodup_nil).1
      · intro l hl
        have hq := ((aggregateLines_main evs [] List.nodup_nil).2 l hl).1
        rw [hq, show baseQ [] l.id = some 0 from rfl, jsAddQ_zero_left]
    · refine ⟨fallbackEvents menuItems (jsToLower speech.data), hev, ?_, ?_⟩
      · rw [speechFallback, List.map_map]
        exact hnd.sublist (List.Sublist.map MenuItem.id (List.filter_sublist menuItems))
      · intro l hl
        rw [speechFallback] at hl
        rcases List.mem_map.1 hl with ⟨it, hit, rfl⟩
        rw [fallbackEvents]
        exact (fallback_sumQty _
          (hnd.sublist (List.Sublist.map MenuItem.id (List.filter_sublist menuItems)))
          it hit).symm
  · rw [parseOrderFromText, allTextEvents]
    by_cases hc : (jsTrim text.data).isEmpty = true
    · rw [if_pos hc, if_pos hc]
      exact ⟨List.nodup_nil, fun l hl => nomatch hl⟩
    · rw [if_neg hc, if_neg hc]
      rw [textFold_eq]
      refine ⟨(aggregateLines_main _ [] List.nodup_nil).1, ?_⟩
      intro l hl
      have hq := ((aggregateLines_main _ [] List.nodup_nil).2 l hl).1
      rw [hq, show baseQ [] l.id = some 0 from rfl, jsAddQ_zero_left]

/-- Claim C4, witness: `"1 coffee, 2 coffee"` over the scenario catalog —
the two text-pattern matches for the same item merge into one quantity-3
line whose quantity is the event sum. -/
theorem claim_C4_aggregation_witness :
    ((parseOrderFromText scenarioCatalog "1 coffee, 2 coffee").map OrderLine.id).Nodup ∧
    (⟨8, "Coffee", 399/100, some 3⟩ : OrderLine).quantity =
      sumQtyFor (allTextEvents scenarioCatalog "1 coffee, 2 coffee") 8 := by
  have h := (claim_C4_aggregation scenarioCatalog "x" "1 coffee, 2 coffee" (by decide)).2
  refine ⟨h.1, ?_⟩
  have hm := h.2 ⟨8, "Coffee", 399/100, some 3⟩
    (by rw [show parseOrderFromText scenarioCatalog "1 coffee, 2 coffee" =
          [⟨8, "Coffee", 399/100, some 3⟩] from rfl]
        exact List.mem_singleton_self _)
  exact hm

/-! ## Claim C8 — the fallback catalog scan -/

/-- The fallback condition as the claim words it: the item's full name is
lexically contained in the utterance.  Stated from the claim, for
comparison with the condition the code actually applies
(`allWordsPresent`). -/
def specNameContained (utterance : String) (item : MenuItem) : Bool :=
  hasSub (jsToLower item.name.data) (jsToLower utterance.data)

/-- A one-item catalog. -/
def catCoffee : List MenuItem := [⟨8, "Coffee", 399/100⟩]

/-- Claim C8, counterexample: on the utterance `"cof"` the fallback adds
Coffee — whose full name is NOT contained in the utterance — because the
code's word-wise test accepts a substring relation in either direction
(`"coffee".includes("cof")`). -/
theorem claim_C8_counterexample :
    parseOrderFromSpeech catCoffee "cof" = .ok [⟨8, "Coffee", 399/100, some 1⟩] ∧
    specNameContained "cof" ⟨8, "Coffee", 399/100⟩ = false :=
  ⟨rfl, rfl⟩

/-- Claim C8 (amended): when no structured pattern resolved an item, the
speech extractor returns, with quantity 1, exactly the catalog items
every word of whose name is in substring relation — in either direction —
with some whitespace-token of the utterance; when at least one structured
match resolved an item the fallback is not applied and the (nonempty)
merged structured lines are returned. -/
theorem claim_C8_fallback (menuItems : List MenuItem) (speech : String)
    (hc : (jsTrim speech.data).isEmpty = false)
    (evs : List (MenuItem × Option Nat))
    (hev : speechEventsList menuItems (speechMatches (jsToLower speech.data)) = .ok evs) :
    (evs = [] →
       parseOrderFromSpeech menuItems speech =
         .ok ((menuItems.filter (allWordsPresent (splitWs (jsToLower speech.data)))).map
           (fun it => ⟨it.id, it.name, it.price, some 1⟩))) ∧
    (evs ≠ [] →
       parseOrderFromSpeech menuItems speech = .ok (aggregateLines [] evs) ∧
       aggregateLines [] evs ≠ []) := by
  rw [parseOrderFromSpeech, if_neg (by simp [hc])]
  rw [show (speechRunMatches menuItems (speechMatches (jsToLower speech.data)) [] >>=
      fun acc => if acc.isEmpty then .ok (speechFallback menuItems (jsToLower speech.data))
        else .ok acc) =
    ((speechEventsList menuItems (speechMatches (jsToLower speech.data))).map
        (aggregateLines []) >>=
      fun acc => if acc.isEmpty then .ok (speechFallback menuItems (jsToLower speech.data))
        else .ok acc) from by rw [speechRunMatches_eq]]
  rw [hev]
  simp only [Except.map, Bind.bind, Except.bind]
  constructor
  · rintro rfl
    simp only [aggregateLines, List.isEmpty_nil, if_true]
    rfl
  · intro hne
    have hnonnil : aggregateLines [] evs ≠ [] :=
      fun hnil => hne ((aggregateLines_nil_iff evs).1 hnil)
    rw [if_neg (by simpa using hnonnil)]
    exact ⟨rfl, hnonnil⟩

/-- Claim C8, witness: `"cof"` on the one-item catalog (no structured
match, fallback applied). -/
theorem claim_C8_fallback_witness :
    parseOrderFromSpeech catCoffee "cof" =
      .ok ((catCoffee.filter (allWordsPresent (splitWs (jsToLower "cof".data)))).map
        (fun it => ⟨it.id, it.name, it.price, some 1⟩)) :=
  (claim_C8_fallback catCoffee "cof" rfl [] rfl).1 rfl

/-! ## Claim C9 (amended) — where quantities can drop below 1 -/

theorem sumQty_pos (evs : List (MenuItem × Option Nat)) (i : Nat)
    (hgood : ∀ e ∈ evs, e.1.id = i → ∃ n, e.2 = some n ∧ 1 ≤ n)
    (hex : ∃ e ∈ evs, e.1.id = i) :
    ∃ n, sumQtyFor evs i = some n ∧ 1 ≤ n := by
  induction evs with
  | nil => obtain ⟨e, he, -⟩ := hex; cases he
  | cons e evs ih =>
    obtain ⟨it, q⟩ := e
    rw [show sumQtyFor ((it, q) :: evs) i =
          if it.id = i then jsAddQ q (sumQtyFor evs i) else sumQtyFor evs i from rfl]
    by_cases hid : it.id = i
    · rw [if_pos hid]
      obtain ⟨n, hq, hn⟩ := hgood (it, q) (List.mem_cons_self _ _) hid
      dsimp only at hq
      by_cases hex2 : ∃ e ∈ evs, e.1.id = i
      · obtain ⟨m, hm, hm1⟩ := ih (fun e he hi => hgood e (List.mem_cons_of_mem _ he) hi) hex2
        refine ⟨n + m, ?_, by omega⟩
        rw [hq, hm]
        rfl
      · have h0 : sumQtyFor evs i = some 0 :=
          sumQtyFor_not_mem evs i (fun e he hi => hex2 ⟨e, he, hi⟩)
        refine ⟨n, ?_, hn⟩
        rw [hq, h0]
        rfl
    · rw [if_neg hid]
      apply ih (fun e he hi => hgood e (List.mem_cons_of_mem _ he) hi)
      obtain ⟨e, he, hi⟩ := hex
      rcases List.mem_cons.1 he with rfl | he'
      · exact absurd hi hid
      · exact ⟨e, he', hi⟩

/-- Claim C9 (amended): every extracted line's quantity is a positive
integer UNLESS one of the resolution events for its item carried an
explicit zero or non-numeric quantity (e.g. `"0 coffee"`); fallback lines
always have quantity 1. -/
theorem claim_C9_quantities (menuItems : List MenuItem) (speech text : String) :
    (∀ lines, parseOrderFromSpeech menuItems speech = .ok lines →
       ∀ l ∈ lines, (∃ n, l.quantity = some n ∧ 1 ≤ n) ∨
         ∃ evs, allSpeechEvents menuItems speech = .ok evs ∧
           ∃ e ∈ evs, e.1.id = l.id ∧ (e.2 = none ∨ e.2 = some 0)) ∧
    (∀ l ∈ parseOrderFromText menuItems text,
       (∃ n, l.quantity = some n ∧ 1 ≤ n) ∨
         ∃ e ∈ allTextEvents menuItems text,
           e.1.id = l.id ∧ (e.2 = none ∨ e.2 = some 0)) := by
  have main : ∀ (evs : List (MenuItem × Option Nat)) (l : OrderLine),
      l ∈ aggregateLines [] evs →
      (∃ n, l.quantity = some n ∧ 1 ≤ n) ∨
        ∃ e ∈ evs, e.1.id = l.id ∧ (e.2 = none ∨ e.2 = some 0) := by
    intro evs l hl
    obtain ⟨hq, hmem⟩ := (aggregateLines_main evs [] List.nodup_nil).2 l hl
    rw [show baseQ [] l.id = some 0 from rfl, jsAddQ_zero_left] at hq
    have hex : ∃ e ∈ evs, e.1.id = l.id := by
      rcases hmem with hin | hev
      · cases hin
      · exact hev
    by_cases hbad : ∃ e ∈ evs, e.1.id = l.id ∧ (e.2 = none ∨ e.2 = some 0)
    · exact Or.inr hbad
    · left
      have hgood : ∀ e ∈ evs, e.1.id = l.id → ∃ n, e.2 = some n ∧ 1 ≤ n := by
        intro e he hi
        cases hq2 : e.2 with
        | none => exact absurd ⟨e, he, hi, Or.inl hq2⟩ hbad
        | some n =>
          cases n with
          | zero => exact absurd ⟨e, he, hi, Or.inr hq2⟩ hbad
          | succ m => exact ⟨m + 1, rfl, by omega⟩
      obtain ⟨n, hs, hn⟩ := sumQty_pos evs l.id hgood hex
      exact ⟨n, by rw [hq, hs], hn⟩
  constructor
  · intro lines h l hl
    rcases parse_speech_cases menuItems speech lines h with
      ⟨rfl, -⟩ | ⟨evs, -, hev, rfl⟩ | ⟨rfl, -⟩
    · cases hl
    · rcases main evs l hl with hp | hb
      · exact Or.inl hp
      · exact Or.inr ⟨evs, hev, hb⟩
    · rw [speechFallback] at hl
      rcases List.mem_map.1 hl with ⟨it, -, rfl⟩
      exact Or.inl ⟨1, rfl, le_refl 1⟩
  · rw [parseOrderFromText, allTextEvents]
    by_cases hc : (jsTrim text.data).isEmpty = true
    · rw [if_pos hc, if_pos hc]
      intro l hl
      cases hl
    · rw [if_neg hc, if_neg hc]
      rw [textFold_eq]
      intro l hl
      exact main _ l hl

/-- Claim C9, witness: the `"0 coffee"` input — its single line is
explained by the zero-quantity event. -/
theorem claim_C9_quantities_witness :
    (∃ n, (⟨8, "Coffee", 399/100, some 0⟩ : OrderLine).quantity = some n ∧ 1 ≤ n) ∨
      ∃ e ∈ allTextEvents scenarioCatalog "0 coffee",
        e.1.id = (⟨8, "Coffee", 399/100, some 0⟩ : OrderLine).id ∧
        (e.2 = none ∨ e.2 = some 0) :=
  (claim_C9_quantities scenarioCatalog "x" "0 coffee").2
    ⟨8, "Coffee", 399/100, some 0⟩
    (by rw [show parseOrderFromText scenarioCatalog "0 coffee" =
          [⟨8, "Coffee", 399/100, some 0⟩] from rfl]
        exact List.mem_singleton_self _)

/-- Claim C1, witness: the amended route characterization at a concrete
store. -/
theorem claim_C1_update_route_witness :
    (updateOrderStatusRoute stDelivered envAllOk 1 "confirmed").1 = .ok :=
  ((claim_C1_update_route stDelivered envAllOk 1 "confirmed").1).2
    ⟨by decide, ⟨⟨1, 5, some 10, "", "delivered"⟩, by decide, rfl⟩⟩

/-- Claim C3, witness: an exact match is returned as such. -/
theorem claim_C3_matcher_witness :
    findMenuItem scenarioCatalog "coffee".data = some ⟨8, "Coffee", 399/100⟩ :=
  (claim_C3_matcher scenarioCatalog "coffee".data ⟨8, "Coffee", 399/100⟩).2
    ⟨rfl, Or.inl ⟨by decide, ⟨[⟨1, "Caesar Salad", 1299/100⟩], [], rfl,
      by intro x hx; rw [List.mem_singleton.1 hx]; decide⟩⟩⟩

/-- Claim C5, witness: the atomicity disjunction at a concrete failing
schedule — the route errors and the store is untouched. -/
theorem claim_C5_api_atomicity_witness :
    (apiCreateOrder stRoomOnly schedFailSecond 5 scenarioLines "").2 = stRoomOnly := by
  rcases claim_C5_api_atomicity stRoomOnly schedFailSecond 5 scenarioLines "" with
    ⟨oid, hc, -⟩ | ⟨-, hst⟩
  · rw [show (apiCreateOrder stRoomOnly schedFailSecond 5 scenarioLines "").1 =
        .serverError from rfl] at hc
    cases hc
  · exact hst

/-- Claim C10, witness: a number ending in digits resolves to its last
four digits; a digit-free sender is rejected by the SMS webhook with no
state change. -/
theorem claim_C10_identity_witness :
    extractRoomNumber "+15551234" = some "1234" ∧
    extractRoomNumber "abc" = none ∧
    smsRoute kIdentity (stRoomOnly, ⟨[]⟩) "abc" "hi" =
      ((stRoomOnly, ⟨[]⟩), [SmsOut.reply "abc" smsRejectionText]) := by
  have h1 := (claim_C10_identity "+15551234" "1234" kIdentity (stRoomOnly, ⟨[]⟩) "hi").1
  have h2 := (claim_C10_identity "abc" "1234" kIdentity (stRoomOnly, ⟨[]⟩) "hi").2
  refine ⟨?_, rfl, h2 rfl⟩
  exact h1.2 ⟨"+1555".data, "1234".data, by decide, by decide, by decide, by decide⟩

end HotelAgent
